import Mathlib

/-
  Verification of the cron schedule evaluator of `tomodachi/helpers/crontab.py`.

  The embedding below is a direct shallow embedding of `get_next_datetime` and
  its inner function `calculate_date`, working over naive (timezone-free)
  reference instants.  For a naive reference the Python code localizes every
  intermediate datetime into `pytz.UTC` and strips the zone again at the end;
  UTC localization never changes any civil field, so the computation on naive
  references is exactly the plain calendar arithmetic modelled here.

  Machine conventions:
  * Python `datetime.datetime` objects become the `DateTime` structure over `Nat`
    fields; the fallible constructor `datetime(...)` (which raises `ValueError`
    on out-of-range fields) becomes `mkDT : ... → Option DateTime`.
  * raised exceptions become `Except Err`;
  * Python strings become `List Char`; `str.split`, `str.lower`, `int(...)`
    and dictionary lookups are modelled character by character (`int()` is
    modelled on the sign+digit tokens that can reach it here);
  * the unbounded `while True:` retry loop of `calculate_date` becomes the
    fuelled loop `calcLoop`; `calcFuel` supplies provably sufficient fuel
    (theorem `calcLoop_isSome_of_fuel`), so the out-of-fuel default is dead code.
-/

namespace Crontab

/-- Python's `calendar.isleap`. -/
def isLeap (y : Nat) : Bool :=
  (y % 4 == 0 && !(y % 100 == 0)) || (y % 400 == 0)

/-- Python's `calendar.monthrange(y, m)[1]`: number of days of month `m` of year `y`. -/
def monthlen (y m : Nat) : Nat :=
  if m = 2 then (if isLeap y then 29 else 28)
  else if m = 4 ∨ m = 6 ∨ m = 9 ∨ m = 11 then 30 else 31

/-- Model of `datetime.datetime` (naive, i.e. no timezone attached). -/
structure DateTime where
  year : Nat
  month : Nat
  day : Nat
  hour : Nat
  minute : Nat
  second : Nat
  microsecond : Nat
deriving DecidableEq, Repr

/-- Field ranges accepted by the `datetime.datetime` constructor. -/
def isValidDT (d : DateTime) : Prop :=
  1 ≤ d.year ∧ d.year ≤ 9999 ∧ 1 ≤ d.month ∧ d.month ≤ 12 ∧
  1 ≤ d.day ∧ d.day ≤ monthlen d.year d.month ∧
  d.hour ≤ 23 ∧ d.minute ≤ 59 ∧ d.second ≤ 59 ∧ d.microsecond ≤ 999999

instance (d : DateTime) : Decidable (isValidDT d) := by
  unfold isValidDT; infer_instance

/-- Model of `datetime.datetime(y, mo, d, h, mi)`: `none` models the raised
`ValueError` when a field is out of range (e.g. day 31 in a 30-day month). -/
def mkDT (y mo d h mi : Nat) : Option DateTime :=
  if 1 ≤ y ∧ y ≤ 9999 ∧ 1 ≤ mo ∧ mo ≤ 12 ∧ 1 ≤ d ∧ d ≤ monthlen y mo ∧
     h ≤ 23 ∧ mi ≤ 59 then
    some ⟨y, mo, d, h, mi, 0, 0⟩
  else none

/-- Days in all years before year `y` in the proleptic Gregorian calendar
(as in CPython's `datetime._days_before_year`). -/
def daysBeforeYear (y : Nat) : Nat :=
  365 * (y - 1) + (y - 1) / 4 - (y - 1) / 100 + (y - 1) / 400

/-- Days of year `y` that lie in months strictly before month `m` (the
`_DAYS_BEFORE_MONTH` table plus leap adjustment of CPython's datetime). -/
def daysBeforeMonth (y m : Nat) : Nat :=
  (if m ≤ 1 then 0 else if m = 2 then 31 else if m = 3 then 59
   else if m = 4 then 90 else if m = 5 then 120 else if m = 6 then 151
   else if m = 7 then 181 else if m = 8 then 212 else if m = 9 then 243
   else if m = 10 then 273 else if m = 11 then 304 else 334)
  + (if 3 ≤ m ∧ isLeap y = true then 1 else 0)

/-- Proleptic Gregorian ordinal of a date, with `0001-01-01` mapped to `1`
(as `datetime.date.toordinal`). -/
def toOrd (y mo d : Nat) : Nat :=
  daysBeforeYear y + daysBeforeMonth y mo + d

/-- Python's `date.isoweekday()`: Monday = 1, ..., Sunday = 7. -/
def isoweekdayYMD (y mo d : Nat) : Nat :=
  (toOrd y mo d - 1) % 7 + 1

def toOrdDT (d : DateTime) : Nat := toOrd d.year d.month d.day

/-- Packed key realizing the lexicographic comparison of `datetime` objects;
for datetimes with in-range fields (all that the program ever compares)
`dtKey a < dtKey b` iff `a` is lexicographically before `b`. -/
def dtKey (d : DateTime) : Nat :=
  d.microsecond +
    1000000 * (d.second +
      61 * (d.minute + 61 * (d.hour + 25 * (d.day + 32 * (d.month + 13 * d.year)))))

/-- The datetime with seconds and microseconds dropped (minute granularity). -/
def floorMin (d : DateTime) : DateTime :=
  ⟨d.year, d.month, d.day, d.hour, d.minute, 0, 0⟩

/-! ## String-level helpers (models of the Python string operations used) -/

/-- Errors that `get_next_datetime` can raise. -/
inductive FieldKind where
  | minute | hour | day | month | isoweekday | year
deriving DecidableEq, Repr

inductive Err where
  | valueError
  | indexError
  | zeroDivision
  | invalidValues (k : FieldKind)
  | daysOutOfScope
deriving DecidableEq, Repr

deriving instance DecidableEq for Except

/-- Python's `c in s` membership for a character. -/
def hasChar (l : List Char) (c : Char) : Bool := l.any (fun x => x = c)

/-- Python's `s.split(sep)` for a one-character separator. -/
def splitOnC (c : Char) : List Char → List (List Char)
  | [] => [[]]
  | x :: xs =>
    if x = c then [] :: splitOnC c xs
    else
      match splitOnC c xs with
      | [] => [[x]]
      | y :: ys => (x :: y) :: ys

/-- Python's `a, b = s.split(sep)`: `ValueError` unless exactly two pieces. -/
def split2 (c : Char) (l : List Char) : Except Err (List Char × List Char) :=
  match splitOnC c l with
  | [a, b] => .ok (a, b)
  | _ => .error .valueError

/-- Python whitespace for `str.split()` with no argument. -/
def isSpaceC (c : Char) : Bool :=
  c = ' ' || c = '\t' || c = '\n' || c = '\x0d' || c = '\x0b' || c = '\x0c'

/-- Python's `s.split()`: split on whitespace runs, dropping empty pieces. -/
def splitWsAux : List Char → List Char → List (List Char)
  | acc, [] => if acc = [] then [] else [acc.reverse]
  | acc, x :: xs =>
    if isSpaceC x then
      if acc = [] then splitWsAux [] xs else acc.reverse :: splitWsAux [] xs
    else splitWsAux (x :: acc) xs

def splitWs (l : List Char) : List (List Char) := splitWsAux [] l

/-- Python's `str.lower` on one character (ASCII range, all that occurs here). -/
def lowerC (c : Char) : Char :=
  if 'A' ≤ c ∧ c ≤ 'Z' then Char.ofNat (c.toNat + 32) else c

def isDigitC (c : Char) : Bool := '0' ≤ c && c ≤ '9'

/-- Accumulating decimal reader; fails on the first non-digit character. -/
def digitsVal : Nat → List Char → Option Nat
  | acc, [] => some acc
  | acc, c :: cs =>
    if isDigitC c then digitsVal (acc * 10 + (c.toNat - 48)) cs else none

/-- Model of Python `int(s)` on the sign+digit tokens reaching it here;
`none` models the raised `ValueError`. -/
def parseInt (l : List Char) : Option Int :=
  match l with
  | [] => none
  | c :: cs =>
    if c = '-' then
      match cs with
      | [] => none
      | _ => (digitsVal 0 cs).map (fun n => -(n : Int))
    else if c = '+' then
      match cs with
      | [] => none
      | _ => (digitsVal 0 cs).map (fun n => (n : Int))
    else (digitsVal 0 (c :: cs)).map (fun n => (n : Int))

/-- Total decimal value of a digit string (used only to phrase theorems). -/
def natOfDigits (l : List Char) : Nat := (digitsVal 0 l).getD 0

/-! ## The cron attribute table (`cron_attributes`) -/

def domLo : FieldKind → Nat
  | .minute => 0
  | .hour => 0
  | .day => 1
  | .month => 1
  | .isoweekday => 0
  | .year => 1970

def domHi : FieldKind → Nat
  | .minute => 59
  | .hour => 23
  | .day => 31
  | .month => 12
  | .isoweekday => 6
  | .year => 2099

/-- `[x for x in range(cron_range[0], cron_range[1] + 1)]`. -/
def domainList (k : FieldKind) : List Nat :=
  List.range' (domLo k) (domHi k + 1 - domLo k)

def aliasList : FieldKind → List (List Char × Nat)
  | .month =>
    [("jan".data, 1), ("feb".data, 2), ("mar".data, 3), ("apr".data, 4),
     ("may".data, 5), ("jun".data, 6), ("jul".data, 7), ("aug".data, 8),
     ("sep".data, 9), ("oct".data, 10), ("nov".data, 11), ("dec".data, 12)]
  | .isoweekday =>
    [("mon".data, 1), ("tue".data, 2), ("wed".data, 3), ("thu".data, 4),
     ("fri".data, 5), ("sat".data, 6), ("sun".data, 0)]
  | _ => []

/-- Python dict `.get(key)` on an association list (keys compared by equality). -/
def assocLookup : List (List Char × Nat) → List Char → Option Nat
  | [], _ => none
  | (k, v) :: r, s => if s = k then some v else assocLookup r s

def aliasLookup (k : FieldKind) (s : List Char) : Option Nat :=
  assocLookup (aliasList k) s

/-- `int(aliases.get(tok, tok))` where failure to parse is observable. -/
def resolveIntOpt (k : FieldKind) (tok : List Char) : Option Int :=
  match aliasLookup k tok with
  | some n => some (n : Int)
  | none => parseInt tok

/-- Raising version of `resolveIntOpt` (uncaught `ValueError`). -/
def resolveIntE (k : FieldKind) (tok : List Char) : Except Err Int :=
  match resolveIntOpt k tok with
  | some i => .ok i
  | none => .error .valueError

/-! ## Field parser (the per-part body of the big `for part in parts` loop) -/

/-- Python `%` on ints (sign follows the divisor), as used in the step filters. -/
def pyMod (x b : Int) : Int := Int.fmod x b

/-- `possible_values = [x for x in possible_values if x % b == (a % b)]`,
with `ZeroDivisionError` on a zero step. -/
def modFilter (pv : List Nat) (ai bi : Int) : Except Err (List Nat) :=
  if bi = 0 then .error .zeroDivision
  else .ok (pv.filter (fun x => pyMod (x : Int) bi == pyMod ai bi))

/-- The `if '-' in part:` branch: inclusive range with optional `l` prefix and
optional `/step` suffix stripped from the right endpoint. -/
def rangeStage (k : FieldKind) (part : List Char) :
    Except Err (List Nat × Bool) :=
  if hasChar part '-' then
    match split2 '-' part with
    | .error e => .error e
    | .ok (a, b) =>
      let bres : Except Err (List Char) :=
        if hasChar b '/' then
          match split2 '/' b with
          | .error e => .error e
          | .ok (b1, _) => .ok b1
        else .ok b
      match bres with
      | .error e => .error e
      | .ok b =>
        match a with
        | [] => .error .indexError
        | c :: rest =>
          let lastR := c = 'l'
          let a := if c = 'l' then rest else c :: rest
          match resolveIntE k a with
          | .error e => .error e
          | .ok ai =>
            match resolveIntE k b with
            | .error e => .error e
            | .ok bi =>
              .ok ((domainList k).filter
                    (fun x => min ai bi ≤ (x : Int) && (x : Int) ≤ max ai bi),
                   lastR)
  else .ok (domainList k, false)

/-- The `if '/' in part:` branch with its `try/except ValueError`. -/
def stepStage (k : FieldKind) (part : List Char) (pv : List Nat) :
    Except Err (List Nat) :=
  if hasChar part '/' then
    match split2 '/' part with
    | .error e => .error e
    | .ok (a, b) =>
      match resolveIntOpt k a, parseInt b with
      | some ai, some bi => modFilter pv ai bi
      | _, _ =>
        -- except ValueError: b = int(b); ...
        match parseInt b with
        | none => .error .valueError
        | some bi =>
          if a = "*".data ∨ a = "?".data then
            if bi = 0 then .error .zeroDivision
            else .ok (pv.filter (fun x => pyMod (x : Int) bi == 0))
          else
            match split2 '-' part with
            | .error e => .error e
            | .ok (a2, _) =>
              match resolveIntE k a2 with
              | .error e => .error e
              | .ok ai => modFilter pv ai bi
  else .ok pv

/-- The final `try:` block: optional `l` prefix, then a singleton filter when
the remaining token resolves to an integer (`ValueError` is passed over). -/
def singleStage (k : FieldKind) (part : List Char) (pv : List Nat) :
    Except Err (List Nat × Bool) :=
  match part with
  | [] => .error .indexError
  | c :: rest =>
    let lastS := c = 'l'
    let p2 := if c = 'l' then rest else c :: rest
    match resolveIntOpt k p2 with
    | some ai => .ok (pv.filter (fun x => (x : Int) == ai), lastS)
    | none => .ok (pv, lastS)

/-- Processing of one comma-separated term of a field. -/
def parsePart (k : FieldKind) (part : List Char) :
    Except Err (List Nat × Bool) :=
  match rangeStage k part with
  | .error e => .error e
  | .ok (pv1, l1) =>
    match stepStage k part pv1 with
    | .error e => .error e
    | .ok pv2 =>
      match singleStage k part pv2 with
      | .error e => .error e
      | .ok (pv3, l2) =>
        if pv3 = [] then .error (.invalidValues k)
        else .ok (pv3, l1 || l2)

/-- Sequential processing of the terms of one field; admissible values are
concatenated and the `last` flag is latched across terms. -/
def parseParts (k : FieldKind) : List (List Char) → Except Err (List Nat × Bool)
  | [] => .ok ([], false)
  | p :: ps =>
    match parsePart k p with
    | .error e => .error e
    | .ok (pv, l) =>
      match parseParts k ps with
      | .error e => .error e
      | .ok (rest, lr) => .ok (pv ++ rest, l || lr)

/-- `cron_parts[i].lower().split(',')` followed by the per-part loop. -/
def parseField (k : FieldKind) (txt : List Char) :
    Except Err (List Nat × Bool) :=
  parseParts k (splitOnC ',' (txt.map lowerC))

/-- The six admissible-value sets (duplicates and order are irrelevant to every
use the program makes of them: `min`, membership and filtering). -/
structure Values where
  minute : List Nat
  hour : List Nat
  day : List Nat
  month : List Nat
  weekday : List Nat
  year : List Nat
deriving DecidableEq, Repr

/-- `min` of a nonempty Python collection of ints (callers guarantee nonempty). -/
def minList : List Nat → Nat
  | [] => 0
  | x :: xs => xs.foldl Nat.min x

/-- Parsing of the (padded) six fields; returns the value sets together with
the `last_day` and `last_weekday` flags. -/
def parseSchedule (parts : List (List Char)) :
    Except Err (Values × Bool × Bool) :=
  let p := parts ++ List.replicate (6 - parts.length) ("*".data)
  match parseField .minute (p.getD 0 ("*".data)) with
  | .error e => .error e
  | .ok (v0, _) =>
  match parseField .hour (p.getD 1 ("*".data)) with
  | .error e => .error e
  | .ok (v1, _) =>
  match parseField .day (p.getD 2 ("*".data)) with
  | .error e => .error e
  | .ok (v2, l2) =>
  match parseField .month (p.getD 3 ("*".data)) with
  | .error e => .error e
  | .ok (v3, _) =>
  match parseField .isoweekday (p.getD 4 ("*".data)) with
  | .error e => .error e
  | .ok (v4, l4) =>
  match parseField .year (p.getD 5 ("*".data)) with
  | .error e => .error e
  | .ok (v5, _) => .ok (⟨v0, v1, v2, v3, v4, v5⟩, l2, l4)

/-- The feasibility pre-check of lines 88-90: a day-of-month minimum of 28 or
more must be attainable for some admissible (year, month) pair. -/
def feasCheck (v : Values) : Except Err Unit :=
  if 28 ≤ minList v.day then
    if v.year.any (fun y => v.month.any (fun m => minList v.day ≤ monthlen y m))
    then .ok () else .error .daysOutOfScope
  else .ok ()

/-! ## The carry-search (`calculate_date`) -/

/-- `min([v for v in values[i] if v >= value])`, `none` when the filter is empty. -/
def minGe (l : List Nat) (x : Nat) : Option Nat :=
  match l.filter (fun v => x ≤ v) with
  | [] => none
  | y :: ys => some (ys.foldl Nat.min y)

/-- One field step: pick the minimal admissible value that is at least the
current one and rebuild the datetime with it (seconds dropped). -/
def stepMinute (vs : List Nat) (cur : DateTime) : Option DateTime :=
  match minGe vs cur.minute with
  | none => none
  | some nv => mkDT cur.year cur.month cur.day cur.hour nv

def stepHour (vs : List Nat) (cur : DateTime) : Option DateTime :=
  match minGe vs cur.hour with
  | none => none
  | some nv => mkDT cur.year cur.month cur.day nv cur.minute

def stepDay (vs : List Nat) (cur : DateTime) : Option DateTime :=
  match minGe vs cur.day with
  | none => none
  | some nv => mkDT cur.year cur.month nv cur.hour cur.minute

def stepMonth (vs : List Nat) (cur : DateTime) : Option DateTime :=
  match minGe vs cur.month with
  | none => none
  | some nv => mkDT cur.year nv cur.day cur.hour cur.minute

/-- Result of one run of the `for i, attr in enumerate(cron_attributes)` loop. -/
inductive PassOut where
  | broke
  | exhausted
  | success (d : DateTime)
deriving DecidableEq, Repr

/-- The field loop in source order minute → hour → day → month → year (the
isoweekday entry is skipped by `continue`); an empty candidate set for the
year field returns `None` from the whole search, any other failure just
abandons this pass. -/
def passFields (v : Values) (cur : DateTime) : PassOut :=
  match stepMinute v.minute cur with
  | none => .broke
  | some d1 =>
  match stepHour v.hour d1 with
  | none => .broke
  | some d2 =>
  match stepDay v.day d2 with
  | none => .broke
  | some d3 =>
  match stepMonth v.month d3 with
  | none => .broke
  | some d4 =>
  match minGe v.year d4.year with
  | none => .exhausted
  | some ny =>
    match mkDT ny d4.month d4.day d4.hour d4.minute with
    | none => .broke
    | some d5 => .success d5

/-- `True` iff the weekday of days `day+1 .. monthlen` of the candidate's month
contains the candidate's own weekday (the `last_weekday` rejection loop). -/
def hasLaterSameWeekday (d : DateTime) : Bool :=
  (List.range' (d.day + 1) (monthlen d.year d.month - d.day)).any
    (fun i => isoweekdayYMD d.year d.month i == isoweekdayYMD d.year d.month d.day)

/-- The three post-filters of lines 120-128. -/
def postOk (v : Values) (lastDayF lastWeekdayF : Bool) (d : DateTime) : Bool :=
  (v.weekday.any (fun w => w = isoweekdayYMD d.year d.month d.day % 7)) &&
  (!lastDayF || d.day == monthlen d.year d.month) &&
  (!lastWeekdayF || !hasLaterSameWeekday d)

/-- The day-advance of lines 130-140: next calendar day at midnight, carrying
into month and year; the year carry can itself raise (`datetime(10000,1,1)`). -/
def advanceDay (cur : DateTime) : Except Err DateTime :=
  match mkDT cur.year cur.month (cur.day + 1) 0 0 with
  | some d => .ok d
  | none =>
    match mkDT cur.year (cur.month + 1) 1 0 0 with
    | some d => .ok d
    | none =>
      match mkDT (cur.year + 1) 1 1 0 0 with
      | some d => .ok d
      | none => .error .valueError

/-- The fuelled `while True:` loop of `calculate_date`; `none` means the fuel
ran out (shown unreachable for the fuel provided by `calcFuel`). -/
def calcLoop (v : Values) (lastDayF lastWeekdayF : Bool) :
    Nat → DateTime → Option (Except Err (Option DateTime))
  | 0, _ => none
  | f + 1, cur =>
    match passFields v cur with
    | .exhausted => some (.ok none)
    | .broke =>
      match advanceDay cur with
      | .error e => some (.error e)
      | .ok nd =>
        if 2100 ≤ nd.year then some (.ok none)
        else calcLoop v lastDayF lastWeekdayF f nd
    | .success d =>
      if postOk v lastDayF lastWeekdayF d then some (.ok (some d))
      else
        match advanceDay cur with
        | .error e => some (.error e)
        | .ok nd =>
          if 2100 ≤ nd.year then some (.ok none)
          else calcLoop v lastDayF lastWeekdayF f nd

/-- Ordinal of 2100-01-01, one past the last day the loop may visit. -/
def ord2100 : Nat := toOrd 2100 1 1

/-- Fuel that provably suffices for `calcLoop` on valid start dates. -/
def calcFuel (d : DateTime) : Nat := ord2100 - toOrdDT d + 2

/-- `calculate_date` for a naive seed (the final re-strip of the timezone is
the identity here).  The `.getD` default is dead code by
`calcLoop_isSome_of_fuel`. -/
def calcDate (v : Values) (lastDayF lastWeekdayF : Bool) (seed : DateTime) :
    Except Err (Option DateTime) :=
  (calcLoop v lastDayF lastWeekdayF (calcFuel seed) seed).getD (.ok none)

/-! ## Seeds and the top-level function -/

/-- `datetime.datetime(...)` where an out-of-range field raises `ValueError`. -/
def dtE (y mo d h mi : Nat) : Except Err DateTime :=
  match mkDT y mo d h mi with
  | some t => .ok t
  | none => .error .valueError

/-- The seed list of lines 152-159 for a naive `now_date`, in source order
with `None` entries filtered out. -/
def buildSeeds (now : DateTime) : Except Err (List DateTime) :=
  match (if now.minute < 59 then
           (dtE now.year now.month now.day now.hour (now.minute + 1)).map some
         else .ok none) with
  | .error e => .error e
  | .ok o2 =>
  match (if now.hour < 23 then
           (dtE now.year now.month now.day (now.hour + 1) 0).map some
         else .ok none) with
  | .error e => .error e
  | .ok o3 =>
  match (if now.day + 1 < monthlen now.year now.month then
           (dtE now.year now.month (now.day + 1) 0 0).map some
         else .ok none) with
  | .error e => .error e
  | .ok o4 =>
  match (if now.month < 11 then
           (dtE now.year (now.month + 1) 1 0 0).map some
         else .ok none) with
  | .error e => .error e
  | .ok o5 =>
  match dtE (now.year + 1) 1 1 0 0 with
  | .error e => .error e
  | .ok s6 =>
    .ok (([(if now.second = 0 then some now else none),
           o2, o3, o4, o5, some s6]).filterMap id)

/-- Python `min` over a nonempty list of datetimes (first minimum on ties). -/
def listMin1 (x : DateTime) (xs : List DateTime) : DateTime :=
  xs.foldl (fun m y => if dtKey y < dtKey m then y else m) x

/-- `get_next_datetime` after macro substitution and whitespace splitting. -/
def getNextTokens (parts : List (List Char)) (now : DateTime) :
    Except Err (Option DateTime) :=
  match parseSchedule parts with
  | .error e => .error e
  | .ok vf =>
    match feasCheck vf.1 with
    | .error e => .error e
    | .ok _ =>
      match buildSeeds now with
      | .error e => .error e
      | .ok seeds =>
        match seeds.mapM (fun s => calcDate vf.1 vf.2.1 vf.2.2 s) with
        | .error e => .error e
        | .ok results =>
          match results.filterMap id with
          | [] => .ok none
          | d :: ds => .ok (some (listMin1 d ds))

/-- The `crontab_aliases` whole-expression macro table. -/
def macroExpand (s : List Char) : List Char :=
  if s = "@yearly".data then "0 0 1 1 *".data
  else if s = "@annually".data then "0 0 1 1 *".data
  else if s = "@monthly".data then "0 0 1 * *".data
  else if s = "@weekly".data then "0 0 * * 0".data
  else if s = "@daily".data then "0 0 * * *".data
  else if s = "@hourly".data then "0 * * * *".data
  else if s = "@minutely".data then "* * * * *".data
  else s

/-- `get_next_datetime(crontab_notation, now_date)` for a naive reference. -/
def get_next_datetime (cronExpr : List Char) (now : DateTime) :
    Except Err (Option DateTime) :=
  getNextTokens (splitWs (macroExpand cronExpr)) now

/-- Comparison of datetimes through the packed key (coincides with the
field-lexicographic comparison Python uses, for in-range datetimes). -/
def dtLe (a b : DateTime) : Prop := dtKey a ≤ dtKey b

def dtLt (a b : DateTime) : Prop := dtKey a < dtKey b

/-- The property "instant `t` satisfies every parsed field set and both
modifier flags, at minute granularity". -/
def matchesSchedule (v : Values) (lastDayF lastWeekdayF : Bool) (t : DateTime) :
    Prop :=
  t.minute ∈ v.minute ∧ t.hour ∈ v.hour ∧ t.day ∈ v.day ∧ t.month ∈ v.month ∧
  t.year ∈ v.year ∧ isoweekdayYMD t.year t.month t.day % 7 ∈ v.weekday ∧
  (lastDayF = true → t.day = monthlen t.year t.month) ∧
  (lastWeekdayF = true → hasLaterSameWeekday t = false) ∧
  t.second = 0 ∧ t.microsecond = 0

/-- Reading of the spec sentence "`*/S`: every `S`-th value starting at the
domain's minimum" as a set of values, for comparison with what the code
computes. -/
def specStarStep (k : FieldKind) (s : Nat) : List Nat :=
  (domainList k).filter (fun v => (v - domLo k) % s == 0)

/-- One failed iteration of the retry loop: `some nd` when the pass at `cur`
neither succeeds nor exhausts the years, and the day-advance keeps the search
below year 2100 — so the loop goes on from `nd`. -/
def retryStep (v : Values) (lastDayF lastWeekdayF : Bool) (cur : DateTime) :
    Option DateTime :=
  match passFields v cur with
  | .exhausted => none
  | .broke =>
    match advanceDay cur with
    | .error _ => none
    | .ok nd => if 2100 ≤ nd.year then none else some nd
  | .success d =>
    if postOk v lastDayF lastWeekdayF d then none
    else
      match advanceDay cur with
      | .error _ => none
      | .ok nd => if 2100 ≤ nd.year then none else some nd

/-- `n` consecutive failed iterations of the retry loop. -/
def retryN (v : Values) (lastDayF lastWeekdayF : Bool) :
    Nat → DateTime → Option DateTime
  | 0, cur => some cur
  | n + 1, cur =>
    match retryStep v lastDayF lastWeekdayF cur with
    | none => none
    | some nd => retryN v lastDayF lastWeekdayF n nd

/-- The value sets the schedule `0 0 29 2 *` parses to. -/
def vFeb29 : Values :=
  ⟨[0], [0], [29], [2], [0, 1, 2, 3, 4, 5, 6], domainList .year⟩

/-! ## Calendar arithmetic lemmas -/

theorem isLeap_iff (y : Nat) :
    isLeap y = true ↔ (y % 4 = 0 ∧ y % 100 ≠ 0) ∨ y % 400 = 0 := by
  simp [isLeap, Bool.or_eq_true, Bool.and_eq_true, beq_iff_eq,
    Bool.not_eq_true', beq_eq_false_iff_ne]

set_option maxHeartbeats 2000000 in
theorem daysBeforeYear_succ (y : Nat) (hy : 1 ≤ y) :
    daysBeforeYear (y + 1) =
      daysBeforeYear y + (if isLeap y = true then 366 else 365) := by
  have h := isLeap_iff y
  by_cases hL : isLeap y = true
  · rw [if_pos hL]
    rw [h] at hL
    unfold daysBeforeYear
    omega
  · rw [if_neg hL]
    rw [h] at hL
    unfold daysBeforeYear
    omega

theorem daysBeforeYear_mono {a b : Nat} (h1 : 1 ≤ a) (h : a ≤ b) :
    daysBeforeYear a ≤ daysBeforeYear b := by
  induction b, h using Nat.le_induction with
  | base => exact Nat.le_refl _
  | succ n hn ih =>
    have := daysBeforeYear_succ n (by omega)
    split_ifs at this <;> omega

theorem monthlen_pos (y m : Nat) : 28 ≤ monthlen y m := by
  unfold monthlen
  split_ifs <;> omega

theorem monthlen_le (y m : Nat) : monthlen y m ≤ 31 := by
  unfold monthlen
  split_ifs <;> omega

theorem daysBeforeMonth_one (y : Nat) : daysBeforeMonth y 1 = 0 := by
  simp [daysBeforeMonth]

/-- Stepping one month forward inside a year. -/
theorem daysBeforeMonth_succ (y m : Nat) (h1 : 1 ≤ m) (h2 : m ≤ 11) :
    daysBeforeMonth y (m + 1) = daysBeforeMonth y m + monthlen y m := by
  interval_cases m <;>
    by_cases h : isLeap y = true <;>
      simp [daysBeforeMonth, monthlen, h]

/-- A full year of months. -/
theorem daysBeforeMonth_year (y : Nat) :
    daysBeforeMonth y 12 + monthlen y 12 =
      (if isLeap y = true then 366 else 365) := by
  by_cases h : isLeap y = true <;> simp [daysBeforeMonth, monthlen, h]

theorem daysBeforeMonth_add_le (y m : Nat) (h1 : 1 ≤ m) (h2 : m ≤ 12) :
    daysBeforeMonth y m + monthlen y m ≤
      (if isLeap y = true then 366 else 365) := by
  interval_cases m <;> by_cases h : isLeap y = true <;>
    simp [daysBeforeMonth, monthlen, h]

theorem toOrd_lt_next_year {d : DateTime} (hv : isValidDT d) :
    toOrdDT d < daysBeforeYear (d.year + 1) + 1 := by
  obtain ⟨h1, h2, h3, h4, h5, h6, _⟩ := hv
  have hml := daysBeforeMonth_add_le d.year d.month h3 h4
  have hby := daysBeforeYear_succ d.year h1
  unfold toOrdDT toOrd
  split_ifs at hml hby <;> omega

theorem ord2100_eq : ord2100 = daysBeforeYear 2100 + 1 := by
  unfold ord2100 toOrd
  rw [daysBeforeMonth_one]

theorem toOrdDT_lt_ord2100 {d : DateTime} (hv : isValidDT d)
    (hy : d.year ≤ 2099) : toOrdDT d < ord2100 := by
  have h1 := toOrd_lt_next_year hv
  have h2 : daysBeforeYear (d.year + 1) ≤ daysBeforeYear 2100 :=
    daysBeforeYear_mono (by omega) (by omega)
  rw [ord2100_eq]
  omega

/-! ## Datetime construction and search-step lemmas -/

theorem mkDT_some_inv {y mo d h mi : Nat} {t : DateTime}
    (he : mkDT y mo d h mi = some t) :
    t = ⟨y, mo, d, h, mi, 0, 0⟩ ∧ 1 ≤ y ∧ y ≤ 9999 ∧ 1 ≤ mo ∧ mo ≤ 12 ∧
      1 ≤ d ∧ d ≤ monthlen y mo ∧ h ≤ 23 ∧ mi ≤ 59 := by
  unfold mkDT at he
  split at he
  · rename_i hc
    cases he
    exact ⟨rfl, hc.1, hc.2.1, hc.2.2.1, hc.2.2.2.1, hc.2.2.2.2.1,
      hc.2.2.2.2.2.1, hc.2.2.2.2.2.2.1, hc.2.2.2.2.2.2.2⟩
  · cases he

theorem mkDT_none_inv {y mo d h mi : Nat} (he : mkDT y mo d h mi = none) :
    ¬(1 ≤ y ∧ y ≤ 9999 ∧ 1 ≤ mo ∧ mo ≤ 12 ∧ 1 ≤ d ∧ d ≤ monthlen y mo ∧
      h ≤ 23 ∧ mi ≤ 59) := by
  unfold mkDT at he
  split at he
  · cases he
  · assumption

theorem mkDT_isValid {y mo d h mi : Nat} {t : DateTime}
    (he : mkDT y mo d h mi = some t) : isValidDT t := by
  obtain ⟨rfl, hc⟩ := mkDT_some_inv he
  exact ⟨hc.1, hc.2.1, hc.2.2.1, hc.2.2.2.1, hc.2.2.2.2.1, hc.2.2.2.2.2.1,
    hc.2.2.2.2.2.2.1, hc.2.2.2.2.2.2.2, by simp, by simp⟩

theorem foldlMin_mem (ys : List Nat) (y : Nat) : ys.foldl Nat.min y ∈ y :: ys := by
  induction ys generalizing y with
  | nil => simp
  | cons z zs ih =>
    simp only [List.foldl_cons]
    rcases List.mem_cons.1 (ih (Nat.min y z)) with heq | hmem
    · have hdef : Nat.min y z = if y ≤ z then y else z := rfl
      rw [heq, hdef]
      split_ifs <;> simp
    · simp [List.mem_cons_of_mem, hmem]

theorem minGe_some_inv {l : List Nat} {x n : Nat} (h : minGe l x = some n) :
    n ∈ l ∧ x ≤ n := by
  unfold minGe at h
  split at h
  · cases h
  · rename_i y ys hf
    cases h
    have hm := foldlMin_mem ys y
    rw [← hf] at hm
    have hmf := List.mem_filter.1 hm
    exact ⟨hmf.1, by simpa using hmf.2⟩

theorem stepMinute_some_inv {vs : List Nat} {cur d1 : DateTime}
    (h : stepMinute vs cur = some d1) :
    ∃ nv, nv ∈ vs ∧ cur.minute ≤ nv ∧
      d1 = ⟨cur.year, cur.month, cur.day, cur.hour, nv, 0, 0⟩ := by
  unfold stepMinute at h
  split at h
  · cases h
  · rename_i nv hm
    obtain ⟨rfl, _⟩ := mkDT_some_inv h
    obtain ⟨h1, h2⟩ := minGe_some_inv hm
    exact ⟨nv, h1, h2, rfl⟩

theorem stepHour_some_inv {vs : List Nat} {cur d1 : DateTime}
    (h : stepHour vs cur = some d1) :
    ∃ nv, nv ∈ vs ∧ cur.hour ≤ nv ∧
      d1 = ⟨cur.year, cur.month, cur.day, nv, cur.minute, 0, 0⟩ := by
  unfold stepHour at h
  split at h
  · cases h
  · rename_i nv hm
    obtain ⟨rfl, _⟩ := mkDT_some_inv h
    obtain ⟨h1, h2⟩ := minGe_some_inv hm
    exact ⟨nv, h1, h2, rfl⟩

theorem stepDay_some_inv {vs : List Nat} {cur d1 : DateTime}
    (h : stepDay vs cur = some d1) :
    ∃ nv, nv ∈ vs ∧ cur.day ≤ nv ∧
      d1 = ⟨cur.year, cur.month, nv, cur.hour, cur.minute, 0, 0⟩ := by
  unfold stepDay at h
  split at h
  · cases h
  · rename_i nv hm
    obtain ⟨rfl, _⟩ := mkDT_some_inv h
    obtain ⟨h1, h2⟩ := minGe_some_inv hm
    exact ⟨nv, h1, h2, rfl⟩

theorem stepMonth_some_inv {vs : List Nat} {cur d1 : DateTime}
    (h : stepMonth vs cur = some d1) :
    ∃ nv, nv ∈ vs ∧ cur.month ≤ nv ∧
      d1 = ⟨cur.year, nv, cur.day, cur.hour, cur.minute, 0, 0⟩ := by
  unfold stepMonth at h
  split at h
  · cases h
  · rename_i nv hm
    obtain ⟨rfl, _⟩ := mkDT_some_inv h
    obtain ⟨h1, h2⟩ := minGe_some_inv hm
    exact ⟨nv, h1, h2, rfl⟩

/-- Everything a successful field pass guarantees about its candidate. -/
theorem passFields_success_inv {v : Values} {cur t : DateTime}
    (h : passFields v cur = .success t) :
    t.minute ∈ v.minute ∧ t.hour ∈ v.hour ∧ t.day ∈ v.day ∧
    t.month ∈ v.month ∧ t.year ∈ v.year ∧ t.second = 0 ∧ t.microsecond = 0 ∧
    isValidDT t ∧ cur.year ≤ t.year ∧ dtKey (floorMin cur) ≤ dtKey t := by
  unfold passFields at h
  split at h
  · cases h
  · rename_i d1 h1
    split at h
    · cases h
    · rename_i d2 h2
      split at h
      · cases h
      · rename_i d3 h3
        split at h
        · cases h
        · rename_i d4 h4
          split at h
          · cases h
          · rename_i ny h5
            split at h
            · cases h
            · rename_i d5 h6
              cases h
              obtain ⟨nv1, hm1, hle1, rfl⟩ := stepMinute_some_inv h1
              obtain ⟨nv2, hm2, hle2, rfl⟩ := stepHour_some_inv h2
              obtain ⟨nv3, hm3, hle3, rfl⟩ := stepDay_some_inv h3
              obtain ⟨nv4, hm4, hle4, rfl⟩ := stepMonth_some_inv h4
              obtain ⟨hm5, hle5⟩ := minGe_some_inv h5
              obtain ⟨rfl, hb⟩ := mkDT_some_inv h6
              refine ⟨hm1, hm2, hm3, hm4, hm5, rfl, rfl, mkDT_isValid h6,
                by simpa using hle5, ?_⟩
              simp only [floorMin, dtKey] at *
              omega

theorem advanceDay_ok_inv {cur nd : DateTime} (hv : isValidDT cur)
    (h : advanceDay cur = .ok nd) :
    isValidDT nd ∧ toOrdDT nd = toOrdDT cur + 1 ∧ cur.year ≤ nd.year ∧
    nd.second = 0 ∧ nd.microsecond = 0 ∧ dtKey (floorMin cur) < dtKey nd := by
  obtain ⟨hy1, hy2, hmo1, hmo2, hd1, hd2, hh, hmi, _⟩ := hv
  unfold advanceDay at h
  split at h
  · rename_i d hd
    cases h
    obtain ⟨rfl, hb⟩ := mkDT_some_inv hd
    refine ⟨mkDT_isValid hd, ?_, le_refl _, rfl, rfl, ?_⟩
    · unfold toOrdDT toOrd
      try dsimp only
      omega
    · simp only [floorMin, dtKey]
      try dsimp only
      omega
  · rename_i hn1
    have hb1 := mkDT_none_inv hn1
    have hdm : cur.day = monthlen cur.year cur.month := by omega
    split at h
    · rename_i d hd
      cases h
      obtain ⟨rfl, hb⟩ := mkDT_some_inv hd
      have hmo11 : cur.month ≤ 11 := by omega
      refine ⟨mkDT_isValid hd, ?_, by simp, rfl, rfl, ?_⟩
      · unfold toOrdDT toOrd
        try dsimp only
        have hstep := daysBeforeMonth_succ cur.year cur.month hmo1 hmo11
        omega
      · have hdle := monthlen_le cur.year cur.month
        simp only [floorMin, dtKey]
        try dsimp only
        omega
    · rename_i hn2
      have hb2 := mkDT_none_inv hn2
      have hmo12 : cur.month = 12 := by
        rcases Nat.lt_or_ge cur.month 12 with hc | hc
        · exfalso
          exact hb2 ⟨hy1, hy2, by omega, by omega, by omega, by
            have := monthlen_pos cur.year (cur.month + 1); omega, by omega, by omega⟩
        · omega
      split at h
      · rename_i d hd
        cases h
        obtain ⟨rfl, hb⟩ := mkDT_some_inv hd
        refine ⟨mkDT_isValid hd, ?_, by simp, rfl, rfl, ?_⟩
        · unfold toOrdDT toOrd
          try dsimp only
          have hby := daysBeforeYear_succ cur.year hy1
          have hyr := daysBeforeMonth_year cur.year
          have hml12 : monthlen cur.year 12 = 31 := by
            unfold monthlen; norm_num
          rw [daysBeforeMonth_one]
          rw [hmo12] at hdm ⊢
          rw [hdm, hml12]
          rw [hml12] at hyr
          split_ifs at hby hyr <;> omega
        · have hdle := monthlen_le cur.year cur.month
          simp only [floorMin, dtKey]
          try dsimp only
          omega
      · cases h

theorem advanceDay_error_inv {cur : DateTime} {e : Err} (hv : isValidDT cur)
    (h : advanceDay cur = .error e) :
    cur.year = 9999 ∧ cur.month = 12 ∧ cur.day = 31 := by
  obtain ⟨hy1, hy2, hmo1, hmo2, hd1, hd2, hh, hmi, _⟩ := hv
  unfold advanceDay at h
  split at h
  · cases h
  · rename_i h1
    have hb1 := mkDT_none_inv h1
    split at h
    · cases h
    · rename_i h2
      have hb2 := mkDT_none_inv h2
      split at h
      · cases h
      · rename_i h3
        have hb3 := mkDT_none_inv h3
        have hml1 := monthlen_pos (cur.year + 1) 1
        have hml2 := monthlen_pos cur.year (cur.month + 1)
        have hmo12 : cur.month = 12 := by omega
        have hy9999 : cur.year = 9999 := by omega
        have h31 : monthlen cur.year cur.month = 31 := by
          rw [hmo12]; unfold monthlen; norm_num
        exact ⟨hy9999, hmo12, by omega⟩

theorem floorMin_eq_self {d : DateTime} (h1 : d.second = 0)
    (h2 : d.microsecond = 0) : floorMin d = d := by
  cases d
  dsimp [floorMin] at h1 h2 ⊢
  rw [h1, h2]

/-! ## Loop lemmas -/

theorem postOk_true_inv {v : Values} {ld lw : Bool} {d : DateTime}
    (h : postOk v ld lw d = true) :
    isoweekdayYMD d.year d.month d.day % 7 ∈ v.weekday ∧
    (ld = true → d.day = monthlen d.year d.month) ∧
    (lw = true → hasLaterSameWeekday d = false) := by
  unfold postOk at h
  rw [Bool.and_eq_true, Bool.and_eq_true] at h
  obtain ⟨⟨hA, hB⟩, hC⟩ := h
  refine ⟨?_, ?_, ?_⟩
  · rcases List.any_eq_true.1 hA with ⟨w, hw, hweq⟩
    have hwe : w = isoweekdayYMD d.year d.month d.day % 7 := by simpa using hweq
    rwa [hwe] at hw
  · intro hld
    rw [hld] at hB
    simpa using hB
  · intro hlw
    rw [hlw] at hC
    simpa using hC

/-- Whatever a successful search returns satisfies the whole schedule and is
not before the floor of the seed it started from. -/
theorem calcLoop_ok_some_inv {v : Values} {ld lw : Bool} :
    ∀ (f : Nat) {cur t : DateTime}, isValidDT cur →
      calcLoop v ld lw f cur = some (.ok (some t)) →
      matchesSchedule v ld lw t ∧ dtKey (floorMin cur) ≤ dtKey t := by
  intro f
  induction f with
  | zero => intro cur t _ h; cases h
  | succ f ih =>
    intro cur t hv h
    simp only [calcLoop] at h
    split at h
    · simp at h
    · split at h
      · simp at h
      · rename_i nd hadv
        split at h
        · simp at h
        · obtain ⟨hvnd, _, _, hs0, hms0, hkey⟩ := advanceDay_ok_inv hv hadv
          obtain ⟨hm, hk⟩ := ih hvnd h
          rw [floorMin_eq_self hs0 hms0] at hk
          exact ⟨hm, le_trans (le_of_lt hkey) hk⟩
    · rename_i d hpass
      split at h
      · rename_i hpost
        simp only [Option.some.injEq, Except.ok.injEq] at h
        subst h
        obtain ⟨q1, q2, q3, q4, q5, q6, q7, _, _, q10⟩ :=
          passFields_success_inv hpass
        obtain ⟨p1, p2, p3⟩ := postOk_true_inv hpost
        exact ⟨⟨q1, q2, q3, q4, q5, p1, p2, p3, q6, q7⟩, q10⟩
      · split at h
        · simp at h
        · rename_i nd hadv
          split at h
          · simp at h
          · obtain ⟨hvnd, _, _, hs0, hms0, hkey⟩ := advanceDay_ok_inv hv hadv
            obtain ⟨hm, hk⟩ := ih hvnd h
            rw [floorMin_eq_self hs0 hms0] at hk
            exact ⟨hm, le_trans (le_of_lt hkey) hk⟩

/-- With the fuel provided by `calcFuel`, the loop always reaches a verdict. -/
theorem calcLoop_isSome_of_fuel (v : Values) (ld lw : Bool) :
    ∀ (f : Nat) (cur : DateTime), isValidDT cur →
      ord2100 - toOrdDT cur + 2 ≤ f → (calcLoop v ld lw f cur).isSome := by
  intro f
  induction f with
  | zero => intro cur _ hf; omega
  | succ f ih =>
    intro cur hv hf
    simp only [calcLoop]
    split
    · simp
    · split
      · simp
      · rename_i nd hadv
        split
        · simp
        · rename_i h2100
          obtain ⟨hvnd, hord, _⟩ := advanceDay_ok_inv hv hadv
          apply ih nd hvnd
          have hlt := toOrdDT_lt_ord2100 hvnd (by omega)
          omega
    · split
      · simp
      · split
        · simp
        · rename_i nd hadv
          split
          · simp
          · rename_i h2100
            obtain ⟨hvnd, hord, _⟩ := advanceDay_ok_inv hv hadv
            apply ih nd hvnd
            have hlt := toOrdDT_lt_ord2100 hvnd (by omega)
            omega

/-- When every admissible year lies strictly before the year every visited
candidate has, the search can only end in `None`. -/
theorem calcLoop_none_of_years_lt {v : Values} {ld lw : Bool} {Y : Nat}
    (hY : ∀ y ∈ v.year, y < Y) :
    ∀ (f : Nat) (cur : DateTime), isValidDT cur → Y ≤ cur.year →
      (cur.year ≤ 9998 ∨
        (cur.year = 9999 ∧ (cur.month ≠ 12 ∨ cur.day ≠ 31))) →
      calcLoop v ld lw f cur = none ∨
        calcLoop v ld lw f cur = some (.ok none) := by
  intro f
  induction f with
  | zero => intro cur _ _ _; left; rfl
  | succ f ih =>
    intro cur hv hy hinv
    simp only [calcLoop]
    split
    · right; rfl
    · split
      · rename_i e herr
        obtain ⟨hz1, hz2, hz3⟩ := advanceDay_error_inv hv herr
        omega
      · rename_i nd hadv
        split
        · right; rfl
        · rename_i h2100
          obtain ⟨hvnd, hord, hyr, _⟩ := advanceDay_ok_inv hv hadv
          exact ih nd hvnd (le_trans hy hyr) (by omega)
    · rename_i d hpass
      exfalso
      obtain ⟨_, _, _, _, hy5, _, _, _, hcy, _⟩ := passFields_success_inv hpass
      have := hY d.year hy5
      omega

/-- `calculate_date` on a valid seed: results inherit the loop facts. -/
theorem calcDate_ok_some_inv {v : Values} {ld lw : Bool} {seed t : DateTime}
    (hv : isValidDT seed) (h : calcDate v ld lw seed = .ok (some t)) :
    matchesSchedule v ld lw t ∧ dtKey (floorMin seed) ≤ dtKey t := by
  unfold calcDate at h
  have hs := calcLoop_isSome_of_fuel v ld lw (calcFuel seed) seed hv
    (by unfold calcFuel; omega)
  obtain ⟨r, hr⟩ := Option.isSome_iff_exists.1 hs
  rw [hr] at h
  simp only [Option.getD_some] at h
  rw [h] at hr
  exact calcLoop_ok_some_inv _ hv hr

theorem calcDate_none_of_years_lt {v : Values} {ld lw : Bool} {Y : Nat}
    {seed : DateTime} (hY : ∀ y ∈ v.year, y < Y) (hv : isValidDT seed)
    (hy : Y ≤ seed.year)
    (hinv : seed.year ≤ 9998 ∨
      (seed.year = 9999 ∧ (seed.month ≠ 12 ∨ seed.day ≠ 31))) :
    calcDate v ld lw seed = .ok none := by
  unfold calcDate
  have hs := calcLoop_isSome_of_fuel v ld lw (calcFuel seed) seed hv
    (by unfold calcFuel; omega)
  rcases calcLoop_none_of_years_lt hY (calcFuel seed) seed hv hy hinv with hn | hn
  · rw [hn] at hs; cases hs
  · rw [hn]; rfl

/-! ## Seed and aggregation lemmas -/

theorem mkDT_eq_some {y mo d h mi : Nat}
    (hc : 1 ≤ y ∧ y ≤ 9999 ∧ 1 ≤ mo ∧ mo ≤ 12 ∧ 1 ≤ d ∧ d ≤ monthlen y mo ∧
      h ≤ 23 ∧ mi ≤ 59) :
    mkDT y mo d h mi = some ⟨y, mo, d, h, mi, 0, 0⟩ := by
  unfold mkDT
  rw [if_pos hc]

theorem dtE_ok_inv {y mo d h mi : Nat} {t : DateTime}
    (he : dtE y mo d h mi = .ok t) :
    t = ⟨y, mo, d, h, mi, 0, 0⟩ ∧ isValidDT t := by
  unfold dtE at he
  split at he
  · rename_i t' ht
    cases he
    exact ⟨(mkDT_some_inv ht).1, mkDT_isValid ht⟩
  · cases he

theorem expMap_ok_inv {α β : Type} {f : α → β} {e : Except Err α} {b : β}
    (h : e.map f = .ok b) : ∃ a, e = .ok a ∧ b = f a := by
  cases e with
  | error err => simp [Except.map] at h
  | ok a =>
    simp only [Except.map, Except.ok.injEq] at h
    exact ⟨a, rfl, h.symm⟩

/-- Existence and shape of the seed list for a reference below the raising
year (the `datetime(now.year + 1, 1, 1)` seed needs `now.year ≤ 9998`). -/
theorem buildSeeds_ok_of {now : DateTime} (hv : isValidDT now)
    (hy : now.year ≤ 9998) : ∃ seeds, buildSeeds now = .ok seeds := by
  obtain ⟨hy1, hy2, hmo1, hmo2, hd1, hd2, hh, hmi, hsec, hmic⟩ := hv
  have h2 : (if now.minute < 59 then
        ((dtE now.year now.month now.day now.hour (now.minute + 1)).map some)
      else .ok (none : Option DateTime)) =
      .ok (if now.minute < 59 then
        some ⟨now.year, now.month, now.day, now.hour, now.minute + 1, 0, 0⟩
      else none) := by
    split_ifs with hc
    · unfold dtE
      rw [mkDT_eq_some ⟨hy1, hy2, hmo1, hmo2, hd1, hd2, hh, by omega⟩]
      rfl
    · rfl
  have h3 : (if now.hour < 23 then
        ((dtE now.year now.month now.day (now.hour + 1) 0).map some)
      else .ok (none : Option DateTime)) =
      .ok (if now.hour < 23 then
        some ⟨now.year, now.month, now.day, now.hour + 1, 0, 0, 0⟩
      else none) := by
    split_ifs with hc
    · unfold dtE
      rw [mkDT_eq_some ⟨hy1, hy2, hmo1, hmo2, hd1, hd2, by omega, by omega⟩]
      rfl
    · rfl
  have h4 : (if now.day + 1 < monthlen now.year now.month then
        ((dtE now.year now.month (now.day + 1) 0 0).map some)
      else .ok (none : Option DateTime)) =
      .ok (if now.day + 1 < monthlen now.year now.month then
        some ⟨now.year, now.month, now.day + 1, 0, 0, 0, 0⟩
      else none) := by
    split_ifs with hc
    · unfold dtE
      rw [mkDT_eq_some ⟨hy1, hy2, hmo1, hmo2, by omega, by omega, by omega,
        by omega⟩]
      rfl
    · rfl
  have h5 : (if now.month < 11 then
        ((dtE now.year (now.month + 1) 1 0 0).map some)
      else .ok (none : Option DateTime)) =
      .ok (if now.month < 11 then
        some ⟨now.year, now.month + 1, 1, 0, 0, 0, 0⟩
      else none) := by
    split_ifs with hc
    · unfold dtE
      have hml := monthlen_pos now.year (now.month + 1)
      rw [mkDT_eq_some ⟨hy1, hy2, by omega, by omega, by omega, by omega,
        by omega, by omega⟩]
      rfl
    · rfl
  have h6 : dtE (now.year + 1) 1 1 0 0 =
      .ok ⟨now.year + 1, 1, 1, 0, 0, 0, 0⟩ := by
    unfold dtE
    have hml := monthlen_pos (now.year + 1) 1
    rw [mkDT_eq_some ⟨by omega, by omega, by omega, by omega, by omega,
      by omega, by omega, by omega⟩]
  cases hb : buildSeeds now with
  | ok seeds => exact ⟨seeds, rfl⟩
  | error e =>
    exfalso
    unfold buildSeeds at hb
    rw [h2, h3, h4, h5, h6] at hb
    dsimp only at hb
    cases hb

/-- Every seed is valid, starts at or after the reference, and is either the
reference itself (only when its seconds are zero) or a strictly later
zero-second instant whose year is the reference's or the next one. -/
theorem buildSeeds_mem_inv {now : DateTime} {seeds : List DateTime}
    (hv : isValidDT now) (h : buildSeeds now = .ok seeds) :
    ∀ s ∈ seeds, isValidDT s ∧ now.year ≤ s.year ∧
      dtKey (floorMin now) ≤ dtKey (floorMin s) ∧
      ((s = now ∧ now.second = 0) ∨
        (s.second = 0 ∧ s.microsecond = 0 ∧ dtKey now < dtKey s ∧
          (s.year = now.year ∨
            (s.year = now.year + 1 ∧ s.month = 1 ∧ s.day = 1)))) := by
  obtain ⟨hy1, hy2, hmo1, hmo2, hd1, hd2, hh, hmi, hsec, hmic⟩ := hv
  unfold buildSeeds at h
  split at h
  · cases h
  · rename_i o2 ho2
    split at h
    · cases h
    · rename_i o3 ho3
      split at h
      · cases h
      · rename_i o4 ho4
        split at h
        · cases h
        · rename_i o5 ho5
          split at h
          · cases h
          · rename_i s6 hs6
            simp only [Except.ok.injEq] at h
            subst h
            intro s hs
            have hdle := monthlen_le now.year now.month
            rw [List.mem_filterMap] at hs
            obtain ⟨a, ha, hid⟩ := hs
            simp only [id_eq] at hid
            subst hid
            simp only [List.mem_cons, List.not_mem_nil, or_false] at ha
            rcases ha with ha | ha | ha | ha | ha | ha
            · -- seed 1: the reference itself, present when its seconds are 0
              split_ifs at ha with hc
              cases ha
              exact ⟨⟨hy1, hy2, hmo1, hmo2, hd1, hd2, hh, hmi, hsec,
                hmic⟩, le_refl _, le_refl _, Or.inl ⟨rfl, hc⟩⟩
            · -- seed 2: next minute
              split_ifs at ho2 with hc
              · obtain ⟨t2, ht2, rfl⟩ := expMap_ok_inv ho2
                obtain ⟨rfl, hval⟩ := dtE_ok_inv ht2
                cases ha
                refine ⟨hval, by simp, ?_, Or.inr ⟨rfl, rfl, ?_, Or.inl rfl⟩⟩
                · simp only [floorMin, dtKey]
                  try dsimp only
                  omega
                · simp only [dtKey]
                  try dsimp only
                  omega
              · cases ho2
                cases ha
            · -- seed 3: next hour
              split_ifs at ho3 with hc
              · obtain ⟨t3, ht3, rfl⟩ := expMap_ok_inv ho3
                obtain ⟨rfl, hval⟩ := dtE_ok_inv ht3
                cases ha
                refine ⟨hval, by simp, ?_, Or.inr ⟨rfl, rfl, ?_, Or.inl rfl⟩⟩
                · simp only [floorMin, dtKey]
                  try dsimp only
                  omega
                · simp only [dtKey]
                  try dsimp only
                  omega
              · cases ho3
                cases ha
            · -- seed 4: next day
              split_ifs at ho4 with hc
              · obtain ⟨t4, ht4, rfl⟩ := expMap_ok_inv ho4
                obtain ⟨rfl, hval⟩ := dtE_ok_inv ht4
                cases ha
                refine ⟨hval, by simp, ?_, Or.inr ⟨rfl, rfl, ?_, Or.inl rfl⟩⟩
                · simp only [floorMin, dtKey]
                  try dsimp only
                  omega
                · simp only [dtKey]
                  try dsimp only
                  omega
              · cases ho4
                cases ha
            · -- seed 5: first day of next month
              split_ifs at ho5 with hc
              · obtain ⟨t5, ht5, rfl⟩ := expMap_ok_inv ho5
                obtain ⟨rfl, hval⟩ := dtE_ok_inv ht5
                cases ha
                refine ⟨hval, by simp, ?_, Or.inr ⟨rfl, rfl, ?_, Or.inl rfl⟩⟩
                · simp only [floorMin, dtKey]
                  try dsimp only
                  omega
                · simp only [dtKey]
                  try dsimp only
                  omega
              · cases ho5
                cases ha
            · -- seed 6: January 1st of the next year
              obtain ⟨rfl, hval⟩ := dtE_ok_inv hs6
              cases ha
              refine ⟨hval, by simp, ?_,
                Or.inr ⟨rfl, rfl, ?_, Or.inr ⟨rfl, rfl, rfl⟩⟩⟩
              · simp only [floorMin, dtKey]
                try dsimp only
                omega
              · simp only [dtKey]
                try dsimp only
                omega

theorem listMin1_mem (x : DateTime) (xs : List DateTime) :
    listMin1 x xs ∈ x :: xs := by
  unfold listMin1
  induction xs generalizing x with
  | nil => simp
  | cons z zs ih =>
    simp only [List.foldl_cons]
    rcases List.mem_cons.1 (ih (if dtKey z < dtKey x then z else x)) with
      heq | hmem
    · rw [heq]
      split_ifs <;> simp
    · simp [List.mem_cons_of_mem, hmem]

theorem mapM_ok_mem {α β : Type} {f : α → Except Err β} :
    ∀ {l : List α} {rs : List β}, l.mapM f = .ok rs →
      ∀ r ∈ rs, ∃ a ∈ l, f a = .ok r := by
  intro l
  induction l with
  | nil =>
    intro rs h r hr
    simp only [List.mapM_nil, pure, Except.pure, Except.ok.injEq] at h
    subst h
    cases hr
  | cons a as ih =>
    intro rs h r hr
    rw [List.mapM_cons] at h
    cases hfa : f a with
    | error e =>
      rw [hfa] at h
      simp only [bind, Except.bind, pure, Except.pure] at h
      cases h
    | ok b =>
      rw [hfa] at h
      cases hmm : as.mapM f with
      | error e =>
        rw [hmm] at h
        simp only [bind, Except.bind, pure, Except.pure] at h
        cases h
      | ok bs =>
        rw [hmm] at h
        simp only [bind, Except.bind, pure, Except.pure,
          Except.ok.injEq] at h
        subst h
        rcases List.mem_cons.1 hr with hr | hr
        · exact ⟨a, List.mem_cons_self a as, by rw [hfa, hr]⟩
        · obtain ⟨a', ha', hfa'⟩ := ih hmm r hr
          exact ⟨a', List.mem_cons_of_mem a ha', hfa'⟩

theorem mapM_ok_of_all {α β : Type} {f : α → Except Err β} {g : α → β} :
    ∀ {l : List α}, (∀ a ∈ l, f a = .ok (g a)) → l.mapM f = .ok (l.map g) := by
  intro l
  induction l with
  | nil => intro _; rfl
  | cons a as ih =>
    intro hall
    rw [List.mapM_cons, hall a (List.mem_cons_self a as),
      ih (fun a' ha' => hall a' (List.mem_cons_of_mem a ha'))]
    rfl

/-- Everything that must have happened for `get_next_datetime` to return an
instant. -/
theorem getNextTokens_ok_some_inv {parts : List (List Char)} {now t : DateTime}
    (h : getNextTokens parts now = .ok (some t)) :
    ∃ v lastDayF lastWeekdayF seeds results x xs,
      parseSchedule parts = .ok (v, lastDayF, lastWeekdayF) ∧
      feasCheck v = .ok () ∧ buildSeeds now = .ok seeds ∧
      seeds.mapM (fun s => calcDate v lastDayF lastWeekdayF s) = .ok results ∧
      results.filterMap id = x :: xs ∧ t = listMin1 x xs := by
  unfold getNextTokens at h
  split at h
  · cases h
  · rename_i p hp
    split at h
    · cases h
    · rename_i u hu
      split at h
      · cases h
      · rename_i seeds hseeds
        split at h
        · cases h
        · rename_i results hres
          split at h
          · cases h
          · rename_i x xs hfm
            simp only [Except.ok.injEq, Option.some.injEq] at h
            exact ⟨p.1, p.2.1, p.2.2, seeds, results, x, xs,
              by rw [hp], by cases u; exact hu, hseeds, hres, hfm, h.symm⟩

/-- A returned instant comes from some seed's carry-search; it satisfies the
schedule and is bounded below by that seed. -/
theorem getNext_seed_inv {parts : List (List Char)} {now t : DateTime}
    (hv : isValidDT now) (h : getNextTokens parts now = .ok (some t)) :
    ∃ v lastDayF lastWeekdayF s,
      parseSchedule parts = .ok (v, lastDayF, lastWeekdayF) ∧
      matchesSchedule v lastDayF lastWeekdayF t ∧
      isValidDT s ∧ dtKey (floorMin now) ≤ dtKey (floorMin s) ∧
      ((s = now ∧ now.second = 0) ∨
        (s.second = 0 ∧ s.microsecond = 0 ∧ dtKey now < dtKey s)) ∧
      dtKey (floorMin s) ≤ dtKey t := by
  obtain ⟨v, lastDayF, lastWeekdayF, seeds, results, x, xs, hp, hf, hseeds,
    hres, hfm, ht⟩ := getNextTokens_ok_some_inv h
  have hmem : t ∈ x :: xs := ht ▸ listMin1_mem x xs
  rw [← hfm, List.mem_filterMap] at hmem
  obtain ⟨o, ho, hoid⟩ := hmem
  simp only [id_eq] at hoid
  subst hoid
  obtain ⟨s, hsmem, hcalc⟩ := mapM_ok_mem hres (some t) ho
  obtain ⟨hsv, hsy, hskey, hsform⟩ := buildSeeds_mem_inv hv hseeds s hsmem
  obtain ⟨hmatch, hkey⟩ := calcDate_ok_some_inv hsv hcalc
  refine ⟨v, lastDayF, lastWeekdayF, s, hp, hmatch, hsv, hskey, ?_, hkey⟩
  rcases hsform with hcase | ⟨h1, h2, h3, _⟩
  · exact Or.inl hcase
  · exact Or.inr ⟨h1, h2, h3⟩

/-! ## Claim theorems -/

/-- C1 (amended): an instant returned by the search satisfies every parsed
field set and modifier flag, and is exactly the minimum of the per-seed
carry-search outcomes that are not `None` — but it need not be the earliest
satisfying instant (see the counterexample). -/
theorem getNext_matches_and_is_seed_min {parts : List (List Char)}
    {now t : DateTime} {v : Values} {lastDayF lastWeekdayF : Bool}
    (hv : isValidDT now)
    (hp : parseSchedule parts = .ok (v, lastDayF, lastWeekdayF))
    (h : getNextTokens parts now = .ok (some t)) :
    matchesSchedule v lastDayF lastWeekdayF t ∧
    ∃ seeds results x xs, buildSeeds now = .ok seeds ∧
      seeds.mapM (fun s => calcDate v lastDayF lastWeekdayF s) = .ok results ∧
      results.filterMap id = x :: xs ∧ t = listMin1 x xs := by
  obtain ⟨v', ld', lw', s, hp', hmatch, _⟩ := getNext_seed_inv hv h
  rw [hp] at hp'
  simp only [Except.ok.injEq, Prod.mk.injEq] at hp'
  obtain ⟨rfl, rfl, rfl⟩ := hp'
  obtain ⟨v2, ld2, lw2, seeds, results, x, xs, hp2, _, hseeds, hres, hfm,
    ht⟩ := getNextTokens_ok_some_inv h
  rw [hp] at hp2
  simp only [Except.ok.injEq, Prod.mk.injEq] at hp2
  obtain ⟨rfl, rfl, rfl⟩ := hp2
  exact ⟨hmatch, seeds, results, x, xs, hseeds, hres, hfm, ht⟩

/-- C2 (amended): a returned instant has zero seconds and microseconds and is
at or after the reference truncated to the minute; it is at or after the
reference itself whenever the reference's microseconds are zero, strictly
after whenever the reference's seconds are non-zero, and can equal the
reference only when the reference lies on a zero-second, zero-microsecond
minute boundary. -/
theorem getNext_result_bounds {parts : List (List Char)} {now t : DateTime}
    (hv : isValidDT now) (h : getNextTokens parts now = .ok (some t)) :
    t.second = 0 ∧ t.microsecond = 0 ∧ dtLe (floorMin now) t ∧
    (now.microsecond = 0 → dtLe now t) ∧
    (now.second ≠ 0 → dtLt now t) ∧
    (t = now → now.second = 0 ∧ now.microsecond = 0) := by
  obtain ⟨v, ld, lw, s, hp, hmatch, hsv, hskey, hsform, hkey⟩ :=
    getNext_seed_inv hv h
  obtain ⟨_, _, _, _, _, _, _, _, hts, htm⟩ := hmatch
  refine ⟨hts, htm, le_trans hskey hkey, ?_, ?_, ?_⟩
  · intro hmic0
    rcases hsform with ⟨rfl, hsec0⟩ | ⟨h1, h2, h3⟩
    · rw [floorMin_eq_self hsec0 hmic0] at hkey
      exact hkey
    · rw [floorMin_eq_self h1 h2] at hkey
      exact le_of_lt (lt_of_lt_of_le h3 hkey)
  · intro hsne
    rcases hsform with ⟨rfl, hsec0⟩ | ⟨h1, h2, h3⟩
    · exact absurd hsec0 hsne
    · rw [floorMin_eq_self h1 h2] at hkey
      exact lt_of_lt_of_le h3 hkey
  · intro hteq
    exact ⟨by rw [← hteq]; exact hts, by rw [← hteq]; exact htm⟩

/-- C3: each retry advances the candidate by exactly one calendar day, the
loop answers `None` as soon as the advanced candidate's year reaches 2100,
and with the fuel `calcFuel` provides the loop always reaches a verdict, so
`get_next_datetime` terminates on every input. -/
theorem calcLoop_terminates (v : Values) (lastDayF lastWeekdayF : Bool)
    (cur : DateTime) (hv : isValidDT cur) :
    (∀ nd, advanceDay cur = .ok nd → toOrdDT nd = toOrdDT cur + 1) ∧
    (∀ (f : Nat) (nd : DateTime), advanceDay cur = .ok nd → 2100 ≤ nd.year →
      passFields v cur ≠ .exhausted →
      (∀ d, passFields v cur = .success d →
        postOk v lastDayF lastWeekdayF d = false) →
      calcLoop v lastDayF lastWeekdayF (f + 1) cur = some (.ok none)) ∧
    (calcLoop v lastDayF lastWeekdayF (calcFuel cur) cur).isSome := by
  refine ⟨fun nd h => (advanceDay_ok_inv hv h).2.1, ?_, ?_⟩
  · intro f nd hadv h2100 hne hpost
    simp only [calcLoop]
    split
    · rename_i hp; exact absurd hp hne
    · rw [hadv]
      dsimp only
      rw [if_pos h2100]
    · rename_i d hp
      rw [hpost d hp]
      simp only [Bool.false_eq_true, if_false]
      rw [hadv]
      dsimp only
      rw [if_pos h2100]
  · exact calcLoop_isSome_of_fuel v lastDayF lastWeekdayF _ cur hv
      (by unfold calcFuel; omega)

/-- C4: when the day-of-month minimum is at least 28 and no admissible
(year, month) pair can reach it, the feasibility pre-check raises before any
search, whatever the reference instant is. -/
theorem infeasible_schedule_raises {parts : List (List Char)} {v : Values}
    {lastDayF lastWeekdayF : Bool} (now : DateTime)
    (hp : parseSchedule parts = .ok (v, lastDayF, lastWeekdayF))
    (hmin : 28 ≤ minList v.day)
    (hno : ∀ y ∈ v.year, ∀ m ∈ v.month, monthlen y m < minList v.day) :
    getNextTokens parts now = .error .daysOutOfScope := by
  have hfc : feasCheck v = .error .daysOutOfScope := by
    unfold feasCheck
    rw [if_pos hmin]
    have hany : (v.year.any fun y =>
        v.month.any fun m => minList v.day ≤ monthlen y m) = false := by
      rw [List.any_eq_false]
      intro y hy
      rw [Bool.not_eq_true, List.any_eq_false]
      intro m hm
      rw [Bool.not_eq_true, decide_eq_false_iff_not]
      have := hno y hy m hm
      omega
    rw [hany]
    simp
  unfold getNextTokens
  rw [hp]
  dsimp only
  rw [hfc]

/-- C7 (amended): a schedule whose admissible years all lie strictly before
the reference's year makes every seed's carry-search fail, and the function
returns `None` — provided the reference's year is at most 9998 (a year 9999
reference instead raises while building the next-year seed). -/
theorem getNext_none_of_years_past {parts : List (List Char)}
    {now : DateTime} {v : Values} {lastDayF lastWeekdayF : Bool}
    (hv : isValidDT now) (hy : now.year ≤ 9998)
    (hp : parseSchedule parts = .ok (v, lastDayF, lastWeekdayF))
    (hf : feasCheck v = .ok ())
    (hY : ∀ y ∈ v.year, y < now.year) :
    getNextTokens parts now = .ok none := by
  obtain ⟨seeds, hseeds⟩ := buildSeeds_ok_of hv hy
  have hmem := buildSeeds_mem_inv hv hseeds
  have hall : ∀ s ∈ seeds, calcDate v lastDayF lastWeekdayF s = .ok none := by
    intro s hs
    obtain ⟨hsv, hsy, _, hsform⟩ := hmem s hs
    apply calcDate_none_of_years_lt hY hsv hsy
    rcases hsform with ⟨rfl, _⟩ | ⟨_, _, _, hyr⟩
    · left; exact hy
    · rcases hyr with hyr | ⟨hyr, hmo, hdy⟩
      · left; omega
      · rcases Nat.lt_or_ge s.year 9999 with hc | hc
        · left; omega
        · right
          exact ⟨by omega, Or.inl (by omega)⟩
  have hres := mapM_ok_of_all (g := fun _ => (none : Option DateTime)) hall
  have hnil : (seeds.map fun _ => (none : Option DateTime)).filterMap id =
      [] := by
    simp
  unfold getNextTokens
  rw [hp]
  dsimp only
  rw [hf]
  dsimp only
  rw [hseeds]
  dsimp only
  rw [hres]
  dsimp only
  rw [hnil]

/-- General last-day property: when the day field carries the `l` modifier,
every instant the search returns falls on the last day of its month. -/
theorem getNext_last_day {parts : List (List Char)} {now t : DateTime}
    {v : Values} {lastWeekdayF : Bool} (hv : isValidDT now)
    (hp : parseSchedule parts = .ok (v, true, lastWeekdayF))
    (h : getNextTokens parts now = .ok (some t)) :
    t.day = monthlen t.year t.month := by
  obtain ⟨v', ld', lw', s, hp', hmatch, _⟩ := getNext_seed_inv hv h
  rw [hp] at hp'
  simp only [Except.ok.injEq, Prod.mk.injEq] at hp'
  obtain ⟨rfl, rfl, rfl⟩ := hp'
  exact hmatch.2.2.2.2.2.2.1 rfl

/-! ## String and parser lemmas -/

theorem hasChar_false_iff {l : List Char} {c : Char} :
    hasChar l c = false ↔ c ∉ l := by
  simp only [hasChar, List.any_eq_false, decide_eq_true_eq]
  constructor
  · intro h hc
    exact h c hc rfl
  · intro h x hx heq
    exact h (heq ▸ hx)

theorem hasChar_digits {l : List Char} {c : Char}
    (hl : l.all isDigitC = true) (hc : isDigitC c = false) :
    hasChar l c = false := by
  rw [hasChar_false_iff]
  intro hm
  rw [List.all_eq_true] at hl
  rw [hl c hm] at hc
  cases hc

theorem splitOnC_eq_single {c : Char} {l : List Char} (h : c ∉ l) :
    splitOnC c l = [l] := by
  induction l with
  | nil => rfl
  | cons x xs ih =>
    have hx : ¬(x = c) := fun he => h (by rw [he]; exact List.mem_cons_self c xs)
    have hxs : c ∉ xs := fun hm => h (List.mem_cons_of_mem x hm)
    simp only [splitOnC]
    rw [if_neg hx, ih hxs]

theorem splitOnC_append {c : Char} {a b : List Char} (h : c ∉ a) :
    splitOnC c (a ++ c :: b) = a :: splitOnC c b := by
  induction a with
  | nil => simp [splitOnC]
  | cons x xs ih =>
    have hx : ¬(x = c) := fun he => h (by rw [he]; exact List.mem_cons_self c xs)
    have hxs : c ∉ xs := fun hm => h (List.mem_cons_of_mem x hm)
    simp only [List.cons_append, splitOnC]
    rw [if_neg hx]
    simp only [List.append_eq]
    rw [ih hxs]

theorem digitsVal_isSome {l : List Char} (h : l.all isDigitC = true)
    (acc : Nat) : ∃ n, digitsVal acc l = some n := by
  induction l generalizing acc with
  | nil => exact ⟨acc, rfl⟩
  | cons c cs ih =>
    rw [List.all_cons, Bool.and_eq_true] at h
    simp only [digitsVal, h.1, if_true]
    exact ih h.2 _

theorem parseInt_digits {l : List Char} (hne : l ≠ [])
    (h : l.all isDigitC = true) :
    parseInt l = some ((natOfDigits l : Nat) : Int) := by
  match l, hne with
  | c :: cs, _ =>
    have hall := h
    rw [List.all_cons, Bool.and_eq_true] at h
    have hcm : ¬(c = '-') := by
      intro he
      rw [he] at h
      exact absurd h.1 (by decide)
    have hcp : ¬(c = '+') := by
      intro he
      rw [he] at h
      exact absurd h.1 (by decide)
    unfold parseInt
    try dsimp only
    rw [if_neg hcm, if_neg hcp]
    obtain ⟨n, hn⟩ := digitsVal_isSome hall 0
    unfold natOfDigits
    rw [hn]
    rfl

theorem parseInt_head_bad {c : Char} (cs : List Char)
    (h1 : isDigitC c = false) (h2 : ¬(c = '-')) (h3 : ¬(c = '+')) :
    parseInt (c :: cs) = none := by
  unfold parseInt
  try dsimp only
  rw [if_neg h2, if_neg h3]
  simp [digitsVal, h1]

theorem assocLookup_eq_none {ks : List (List Char × Nat)} {s : List Char}
    (h : ∀ p ∈ ks, p.1 ≠ s) : assocLookup ks s = none := by
  induction ks with
  | nil => rfl
  | cons p ps ih =>
    obtain ⟨k, v⟩ := p
    simp only [assocLookup]
    rw [if_neg]
    · exact ih fun q hq => h q (List.mem_cons_of_mem _ hq)
    · intro he
      exact h (k, v) (List.mem_cons_self _ _) he.symm

theorem aliasLookup_head_sym {k : FieldKind} {c : Char} {cs : List Char}
    (hc : c = '*' ∨ c = '?') : aliasLookup k (c :: cs) = none := by
  cases k
  case month =>
    apply assocLookup_eq_none
    intro p hp
    fin_cases hp <;>
      · intro he
        injection he with h1 _
        rcases hc with rfl | rfl <;> exact absurd h1 (by decide)
  case isoweekday =>
    apply assocLookup_eq_none
    intro p hp
    fin_cases hp <;>
      · intro he
        injection he with h1 _
        rcases hc with rfl | rfl <;> exact absurd h1 (by decide)
  all_goals rfl

theorem resolveIntOpt_sym {k : FieldKind} {c : Char} {cs : List Char}
    (hc : c = '*' ∨ c = '?') : resolveIntOpt k (c :: cs) = none := by
  unfold resolveIntOpt
  rw [aliasLookup_head_sym hc]
  apply parseInt_head_bad
  · rcases hc with rfl | rfl <;> decide
  · rcases hc with rfl | rfl <;> decide
  · rcases hc with rfl | rfl <;> decide

theorem lowerC_digit {c : Char} (h : isDigitC c = true) : lowerC c = c := by
  unfold lowerC
  rw [if_neg]
  rintro ⟨h1, _⟩
  rw [isDigitC, Bool.and_eq_true, decide_eq_true_eq, decide_eq_true_eq] at h
  have h9 : ('A' : Char) ≤ '9' := le_trans h1 h.2
  exact absurd h9 (by decide)

theorem map_lowerC_digits {l : List Char} (h : l.all isDigitC = true) :
    l.map lowerC = l := by
  induction l with
  | nil => rfl
  | cons c cs ih =>
    rw [List.all_cons, Bool.and_eq_true] at h
    rw [List.map_cons, lowerC_digit h.1, ih h.2]

theorem rangeStage_no_dash {k : FieldKind} {part : List Char}
    (h : hasChar part '-' = false) :
    rangeStage k part = .ok (domainList k, false) := by
  unfold rangeStage
  rw [h]
  rfl

/-- A field made of one comma-free, case-stable term parses as its single
part does. -/
theorem parseField_single {k : FieldKind} {part : List Char}
    (hmap : part.map lowerC = part) (hcomma : hasChar part ',' = false) :
    parseField k part = parsePart k part := by
  unfold parseField
  rw [hmap, splitOnC_eq_single (hasChar_false_iff.1 hcomma)]
  unfold parseParts
  cases hp : parsePart k part with
  | error e => rfl
  | ok r =>
    obtain ⟨pv, l⟩ := r
    unfold parseParts
    simp

theorem pyMod_beq_zero (x S : Nat) :
    (pyMod (x : Int) ((S : Nat) : Int) == 0) = (x % S == 0) := by
  unfold pyMod
  rw [Int.fmod_eq_emod _ (by exact_mod_cast Nat.zero_le S)]
  rw [Int.ofNat_mod_ofNat]
  by_cases hx : x % S = 0
  · simp [hx]
  · have hix : ((x % S : Nat) : Int) ≠ 0 := by exact_mod_cast hx
    rw [beq_eq_false_iff_ne.2 hix, beq_eq_false_iff_ne.2 hx]

theorem parsePart_star_step {k : FieldKind} {c : Char} {s : List Char}
    (hc : c = '*' ∨ c = '?') (hne : s ≠ []) (hd : s.all isDigitC = true)
    (hS : 0 < natOfDigits s) :
    parsePart k (c :: '/' :: s) =
      (if (domainList k).filter (fun x => x % natOfDigits s == 0) = [] then
        .error (.invalidValues k)
      else .ok ((domainList k).filter (fun x => x % natOfDigits s == 0),
        false)) := by
  have hs_dash : hasChar s '-' = false := hasChar_digits hd (by decide)
  have hs_slash : hasChar s '/' = false := hasChar_digits hd (by decide)
  have hdash : hasChar (c :: '/' :: s) '-' = false := by
    rcases hc with rfl | rfl <;> simp_all [hasChar]
  have hsplit : split2 '/' (c :: '/' :: s) = .ok ([c], s) := by
    unfold split2
    rw [show c :: '/' :: s = [c] ++ '/' :: s from rfl,
      splitOnC_append (by rcases hc with rfl | rfl <;> simp),
      splitOnC_eq_single (hasChar_false_iff.1 hs_slash)]
  have hslash : hasChar (c :: '/' :: s) '/' = true := by simp [hasChar]
  have hpi := parseInt_digits hne hd
  have hS0 : ((natOfDigits s : Nat) : Int) ≠ 0 := by
    have hS' : natOfDigits s ≠ 0 := by omega
    exact_mod_cast hS'
  unfold parsePart
  rw [rangeStage_no_dash hdash]
  simp only []
  unfold stepStage
  rw [hslash]
  simp only [eq_self_iff_true, if_true]
  rw [hsplit]
  simp only []
  rw [resolveIntOpt_sym hc, hpi]
  simp only []
  rw [if_pos (by rcases hc with rfl | rfl; exacts [Or.inl rfl, Or.inr rfl]),
    if_neg hS0]
  simp only []
  have hfe : (domainList k).filter
      (fun x : Nat => pyMod (x : Int) ((natOfDigits s : Nat) : Int) == 0) =
      (domainList k).filter (fun x => x % natOfDigits s == 0) := by
    apply List.filter_congr
    intro x _
    exact pyMod_beq_zero x (natOfDigits s)
  rw [hfe]
  have hcl : ¬(c = 'l') := by rcases hc with rfl | rfl <;> decide
  unfold singleStage
  try dsimp only
  rw [if_neg hcl, resolveIntOpt_sym hc]
  try dsimp only
  simp [hcl]

/-- C6 (amended): for a positive step `S` whose value set is attainable, the
term `*/S` (and `?/S`) parses to the domain values divisible by `S` — a set
that need not start at the domain's minimum. -/
theorem parseField_star_step {k : FieldKind} {c : Char} {s : List Char}
    (hc : c = '*' ∨ c = '?') (hne : s ≠ []) (hd : s.all isDigitC = true)
    (hS : 0 < natOfDigits s)
    (hatt : (domainList k).filter (fun x => x % natOfDigits s == 0) ≠ []) :
    parseField k (c :: '/' :: s) =
      .ok ((domainList k).filter (fun x => x % natOfDigits s == 0), false) := by
  have hmap : (c :: '/' :: s).map lowerC = c :: '/' :: s := by
    rcases hc with rfl | rfl <;>
      simp [map_lowerC_digits hd, lowerC]
  have hcomma : hasChar (c :: '/' :: s) ',' = false := by
    have := hasChar_digits hd (show isDigitC ',' = false by decide)
    rcases hc with rfl | rfl <;> simp_all [hasChar]
  rw [parseField_single hmap hcomma, parsePart_star_step hc hne hd hS,
    if_neg hatt]

/-- Dropping every token after the sixth leaves the parse unchanged. -/
theorem parseSchedule_take6 {toks : List (List Char)} (h6 : 6 < toks.length) :
    parseSchedule toks = parseSchedule (toks.take 6) := by
  have hrep : 6 - toks.length = 0 := by omega
  have hrep' : 6 - (toks.take 6).length = 0 := by
    rw [List.length_take]
    omega
  have hgd : ∀ i, i < 6 → (toks.take 6).getD i ("*".data) =
      toks.getD i ("*".data) := by
    intro i hi
    unfold List.getD
    rw [List.get?_eq_getElem?, List.get?_eq_getElem?, List.getElem?_take,
      if_pos hi]
  unfold parseSchedule
  rw [hrep, hrep']
  simp only [List.replicate_zero, List.append_nil]
  rw [hgd 0 (by omega), hgd 1 (by omega), hgd 2 (by omega), hgd 3 (by omega),
    hgd 4 (by omega), hgd 5 (by omega)]

/-- C10: a schedule string with more than six whitespace-separated fields
does not raise: the fields after the sixth are ignored, and for every
reference instant the outcome equals that of the six-field prefix. -/
theorem getNext_extra_fields_ignored :
    ∀ (s s' : List Char) (now : DateTime), 6 < (splitWs s).length →
      splitWs s' = (splitWs s).take 6 →
      get_next_datetime s now = get_next_datetime s' now := by
  intro s s' now h6 htake
  have hlen' : (splitWs s').length = 6 := by
    rw [htake, List.length_take]
    omega
  have hms : macroExpand s = s := by
    unfold macroExpand
    split_ifs with h1 h2 h3 h4 h5 hx6 h7
    · rw [h1] at h6; exact absurd h6 (by decide)
    · rw [h2] at h6; exact absurd h6 (by decide)
    · rw [h3] at h6; exact absurd h6 (by decide)
    · rw [h4] at h6; exact absurd h6 (by decide)
    · rw [h5] at h6; exact absurd h6 (by decide)
    · rw [hx6] at h6; exact absurd h6 (by decide)
    · rw [h7] at h6; exact absurd h6 (by decide)
    · rfl
  have hms' : macroExpand s' = s' := by
    unfold macroExpand
    split_ifs with h1 h2 h3 h4 h5 hx6 h7
    · rw [h1] at hlen'; exact absurd hlen' (by decide)
    · rw [h2] at hlen'; exact absurd hlen' (by decide)
    · rw [h3] at hlen'; exact absurd hlen' (by decide)
    · rw [h4] at hlen'; exact absurd hlen' (by decide)
    · rw [h5] at hlen'; exact absurd hlen' (by decide)
    · rw [hx6] at hlen'; exact absurd hlen' (by decide)
    · rw [h7] at hlen'; exact absurd hlen' (by decide)
    · rfl
  unfold get_next_datetime
  rw [hms, hms', htake]
  unfold getNextTokens
  rw [parseSchedule_take6 h6]

/-! ## Concrete instances: leap years, the `l` modifier, counterexamples and
witnesses -/

theorem calcLoop_retry_step {v : Values} {ld lw : Bool} {cur nd : DateTime}
    (h : retryStep v ld lw cur = some nd) (f : Nat) :
    calcLoop v ld lw (f + 1) cur = calcLoop v ld lw f nd := by
  unfold retryStep at h
  simp only [calcLoop]
  cases hp : passFields v cur with
  | exhausted =>
    rw [hp] at h
    simp only [] at h
    cases h
  | broke =>
    rw [hp] at h
    simp only [] at h ⊢
    cases ha : advanceDay cur with
    | error e =>
      rw [ha] at h
      simp only [] at h
      cases h
    | ok nd2 =>
      rw [ha] at h
      simp only [] at h ⊢
      by_cases hy : 2100 ≤ nd2.year
      · rw [if_pos hy] at h
        cases h
      · rw [if_neg hy] at h ⊢
        simp only [Option.some.injEq] at h
        rw [h]
  | success d =>
    rw [hp] at h
    simp only [] at h ⊢
    by_cases hpost : postOk v ld lw d = true
    · rw [if_pos hpost] at h
      cases h
    · rw [if_neg hpost] at h ⊢
      cases ha : advanceDay cur with
      | error e =>
        rw [ha] at h
        simp only [] at h
        cases h
      | ok nd2 =>
        rw [ha] at h
        simp only [] at h ⊢
        by_cases hy : 2100 ≤ nd2.year
        · rw [if_pos hy] at h
          cases h
        · rw [if_neg hy] at h ⊢
          simp only [Option.some.injEq] at h
          rw [h]

theorem calcLoop_retryN {v : Values} {ld lw : Bool} :
    ∀ (n f : Nat) (cur nd : DateTime), retryN v ld lw n cur = some nd →
      calcLoop v ld lw (f + n) cur = calcLoop v ld lw f nd := by
  intro n
  induction n with
  | zero =>
    intro f cur nd h
    simp only [retryN, Option.some.injEq] at h
    rw [Nat.add_zero, h]
  | succ n ih =>
    intro f cur nd h
    simp only [retryN] at h
    cases hs : retryStep v ld lw cur with
    | none =>
      rw [hs] at h
      simp only [] at h
      cases h
    | some mid =>
      rw [hs] at h
      simp only [] at h
      have harith : f + (n + 1) = (f + n) + 1 := by omega
      rw [harith, calcLoop_retry_step hs (f + n)]
      exact ih f mid nd h

theorem retryN_trans {v : Values} {ld lw : Bool} {m n : Nat}
    {cur mid nd : DateTime} (h1 : retryN v ld lw m cur = some mid)
    (h2 : retryN v ld lw n mid = some nd) :
    retryN v ld lw (m + n) cur = some nd := by
  induction m generalizing cur with
  | zero =>
    simp only [retryN, Option.some.injEq] at h1
    rw [Nat.zero_add, h1]
    exact h2
  | succ m ih =>
    have harith : m + 1 + n = (m + n) + 1 := by omega
    rw [harith]
    simp only [retryN] at h1 ⊢
    cases hs : retryStep v ld lw cur with
    | none =>
      rw [hs] at h1
      simp only [] at h1
      cases h1
    | some c2 =>
      rw [hs] at h1
      simp only [] at h1
      simp only [] 
      exact ih h1

theorem getNextTokens_eval {parts : List (List Char)} {now : DateTime}
    {v : Values} {ld lw : Bool} {seeds : List DateTime}
    {rs : List (Option DateTime)} {d : DateTime} {ds : List DateTime}
    (hp : parseSchedule parts = .ok (v, ld, lw))
    (hf : feasCheck v = .ok ())
    (hs : buildSeeds now = .ok seeds)
    (hm : seeds.mapM (fun s => calcDate v ld lw s) = .ok rs)
    (hfm : rs.filterMap id = d :: ds) :
    getNextTokens parts now = .ok (some (listMin1 d ds)) := by
  unfold getNextTokens
  rw [hp]
  dsimp only
  rw [hf]
  dsimp only
  rw [hs]
  dsimp only
  rw [hm]
  dsimp only
  rw [hfm]

theorem calcDate_via_march {v : Values} {ld lw : Bool} {seed goal : DateTime}
    {steps leftover : Nat} {r : Except Err (Option DateTime)}
    (hfuel : calcFuel seed = leftover + steps)
    (hmarch : retryN v ld lw steps seed = some goal)
    (hfin : calcLoop v ld lw leftover goal = some r) :
    calcDate v ld lw seed = r := by
  unfold calcDate
  rw [hfuel, calcLoop_retryN steps leftover seed goal hmarch, hfin]
  rfl

set_option maxRecDepth 400000 in
theorem feb29_march_mar24 :
    retryN vFeb29 false false 30 ⟨2024, 3, 2, 0, 0, 0, 0⟩ =
      some ⟨2024, 4, 1, 0, 0, 0, 0⟩ := by decide!

set_option maxRecDepth 400000 in
theorem feb29_march_apr24 :
    retryN vFeb29 false false 275 ⟨2024, 4, 1, 0, 0, 0, 0⟩ =
      some ⟨2025, 1, 1, 0, 0, 0, 0⟩ := by decide!

set_option maxRecDepth 400000 in
theorem feb29_march_y25 :
    retryN vFeb29 false false 365 ⟨2025, 1, 1, 0, 0, 0, 0⟩ =
      some ⟨2026, 1, 1, 0, 0, 0, 0⟩ := by decide!

set_option maxRecDepth 400000 in
theorem feb29_march_y26 :
    retryN vFeb29 false false 365 ⟨2026, 1, 1, 0, 0, 0, 0⟩ =
      some ⟨2027, 1, 1, 0, 0, 0, 0⟩ := by decide!

set_option maxRecDepth 400000 in
theorem feb29_march_y27 :
    retryN vFeb29 false false 365 ⟨2027, 1, 1, 0, 0, 0, 0⟩ =
      some ⟨2028, 1, 1, 0, 0, 0, 0⟩ := by decide!

set_option maxRecDepth 400000 in
theorem feb29_march_jan23 :
    retryN vFeb29 false false 30 ⟨2023, 1, 2, 0, 0, 0, 0⟩ =
      some ⟨2023, 2, 1, 0, 0, 0, 0⟩ := by decide!

set_option maxRecDepth 400000 in
theorem feb29_march_feb23 :
    retryN vFeb29 false false 334 ⟨2023, 2, 1, 0, 0, 0, 0⟩ =
      some ⟨2024, 1, 1, 0, 0, 0, 0⟩ := by decide!

set_option maxRecDepth 400000 in
theorem feb29_finish_2028 :
    calcLoop vFeb29 false false 26300 ⟨2028, 1, 1, 0, 0, 0, 0⟩ =
      some (.ok (some ⟨2028, 2, 29, 0, 0, 0, 0⟩)) := by decide!

set_option maxRecDepth 400000 in
theorem feb29_finish_2024 :
    calcLoop vFeb29 false false 27761 ⟨2024, 1, 1, 0, 0, 0, 0⟩ =
      some (.ok (some ⟨2024, 2, 29, 0, 0, 0, 0⟩)) := by decide!

theorem feb29_march_case2 :
    retryN vFeb29 false false 1400 ⟨2024, 3, 2, 0, 0, 0, 0⟩ =
      some ⟨2028, 1, 1, 0, 0, 0, 0⟩ := by
  have h := retryN_trans feb29_march_mar24 (retryN_trans feb29_march_apr24
    (retryN_trans feb29_march_y25 (retryN_trans feb29_march_y26
      feb29_march_y27)))
  have e : 30 + (275 + (365 + (365 + 365))) = 1400 := by norm_num
  rw [e] at h
  exact h

theorem feb29_march_case1 :
    retryN vFeb29 false false 364 ⟨2023, 1, 2, 0, 0, 0, 0⟩ =
      some ⟨2024, 1, 1, 0, 0, 0, 0⟩ := by
  have h := retryN_trans feb29_march_jan23 feb29_march_feb23
  have e : 30 + 334 = 364 := by norm_num
  rw [e] at h
  exact h

set_option maxRecDepth 400000 in
/-- C8: for the schedule `0 0 29 2 *`, the search from the naive reference
2023-01-01T00:00:00 returns 2024-02-29T00:00, and from the naive reference
2024-03-01T00:00:00 it returns 2028-02-29T00:00 — the carry-search skips the
non-leap years, in which February 29 does not exist. -/
theorem getNext_leap_february :
    get_next_datetime ("0 0 29 2 *".data) ⟨2023, 1, 1, 0, 0, 0, 0⟩ =
      .ok (some ⟨2024, 2, 29, 0, 0, 0, 0⟩) ∧
    get_next_datetime ("0 0 29 2 *".data) ⟨2024, 3, 1, 0, 0, 0, 0⟩ =
      .ok (some ⟨2028, 2, 29, 0, 0, 0, 0⟩) := by
  constructor
  · have hm1 : retryN vFeb29 false false 365 ⟨2023, 1, 1, 0, 0, 0, 0⟩ =
        some ⟨2024, 1, 1, 0, 0, 0, 0⟩ := by
      have h0 : retryN vFeb29 false false 1 ⟨2023, 1, 1, 0, 0, 0, 0⟩ =
          some ⟨2023, 1, 2, 0, 0, 0, 0⟩ := by decide!
      have h := retryN_trans h0 feb29_march_case1
      have e : 1 + 364 = 365 := by norm_num
      rw [e] at h
      exact h
    have hm2 : retryN vFeb29 false false 365 ⟨2023, 1, 1, 0, 1, 0, 0⟩ =
        some ⟨2024, 1, 1, 0, 0, 0, 0⟩ := by
      have h0 : retryN vFeb29 false false 1 ⟨2023, 1, 1, 0, 1, 0, 0⟩ =
          some ⟨2023, 1, 2, 0, 0, 0, 0⟩ := by decide!
      have h := retryN_trans h0 feb29_march_case1
      have e : 1 + 364 = 365 := by norm_num
      rw [e] at h
      exact h
    have hm3 : retryN vFeb29 false false 365 ⟨2023, 1, 1, 1, 0, 0, 0⟩ =
        some ⟨2024, 1, 1, 0, 0, 0, 0⟩ := by
      have h0 : retryN vFeb29 false false 1 ⟨2023, 1, 1, 1, 0, 0, 0⟩ =
          some ⟨2023, 1, 2, 0, 0, 0, 0⟩ := by decide!
      have h := retryN_trans h0 feb29_march_case1
      have e : 1 + 364 = 365 := by norm_num
      rw [e] at h
      exact h
    have hc1 : calcDate vFeb29 false false ⟨2023, 1, 1, 0, 0, 0, 0⟩ =
        .ok (some ⟨2024, 2, 29, 0, 0, 0, 0⟩) :=
      calcDate_via_march (by decide) hm1 feb29_finish_2024
    have hc2 : calcDate vFeb29 false false ⟨2023, 1, 1, 0, 1, 0, 0⟩ =
        .ok (some ⟨2024, 2, 29, 0, 0, 0, 0⟩) :=
      calcDate_via_march (by decide) hm2 feb29_finish_2024
    have hc3 : calcDate vFeb29 false false ⟨2023, 1, 1, 1, 0, 0, 0⟩ =
        .ok (some ⟨2024, 2, 29, 0, 0, 0, 0⟩) :=
      calcDate_via_march (by decide) hm3 feb29_finish_2024
    have hc4 : calcDate vFeb29 false false ⟨2023, 1, 2, 0, 0, 0, 0⟩ =
        .ok (some ⟨2024, 2, 29, 0, 0, 0, 0⟩) :=
      calcDate_via_march (by decide) feb29_march_case1 feb29_finish_2024
    have hc5 : calcDate vFeb29 false false ⟨2023, 2, 1, 0, 0, 0, 0⟩ =
        .ok (some ⟨2024, 2, 29, 0, 0, 0, 0⟩) :=
      calcDate_via_march (by decide) feb29_march_feb23 feb29_finish_2024
    have hc6 : calcDate vFeb29 false false ⟨2024, 1, 1, 0, 0, 0, 0⟩ =
        .ok (some ⟨2024, 2, 29, 0, 0, 0, 0⟩) := by
      unfold calcDate
      rw [show calcFuel ⟨2024, 1, 1, 0, 0, 0, 0⟩ = 27761 from by decide,
        feb29_finish_2024]
      rfl
    have hall : ∀ s ∈ [(⟨2023, 1, 1, 0, 0, 0, 0⟩ : DateTime),
        ⟨2023, 1, 1, 0, 1, 0, 0⟩, ⟨2023, 1, 1, 1, 0, 0, 0⟩,
        ⟨2023, 1, 2, 0, 0, 0, 0⟩, ⟨2023, 2, 1, 0, 0, 0, 0⟩,
        ⟨2024, 1, 1, 0, 0, 0, 0⟩],
        calcDate vFeb29 false false s =
          .ok (some (⟨2024, 2, 29, 0, 0, 0, 0⟩ : DateTime)) := by
      intro s hs
      simp only [List.mem_cons, List.not_mem_nil, or_false] at hs
      rcases hs with rfl | rfl | rfl | rfl | rfl | rfl
      exacts [hc1, hc2, hc3, hc4, hc5, hc6]
    have hmap := mapM_ok_of_all
      (g := fun _ => some (⟨2024, 2, 29, 0, 0, 0, 0⟩ : DateTime)) hall
    have h := getNextTokens_eval
      (show parseSchedule (splitWs (macroExpand ("0 0 29 2 *".data))) =
        .ok (vFeb29, false, false) from by decide)
      (show feasCheck vFeb29 = .ok () from by decide)
      (show buildSeeds ⟨2023, 1, 1, 0, 0, 0, 0⟩ =
        .ok [(⟨2023, 1, 1, 0, 0, 0, 0⟩ : DateTime), ⟨2023, 1, 1, 0, 1, 0, 0⟩,
          ⟨2023, 1, 1, 1, 0, 0, 0⟩, ⟨2023, 1, 2, 0, 0, 0, 0⟩,
          ⟨2023, 2, 1, 0, 0, 0, 0⟩, ⟨2024, 1, 1, 0, 0, 0, 0⟩] from by decide)
      hmap
      (show _ = (⟨2024, 2, 29, 0, 0, 0, 0⟩ : DateTime) ::
        [(⟨2024, 2, 29, 0, 0, 0, 0⟩ : DateTime), ⟨2024, 2, 29, 0, 0, 0, 0⟩,
          ⟨2024, 2, 29, 0, 0, 0, 0⟩, ⟨2024, 2, 29, 0, 0, 0, 0⟩,
          ⟨2024, 2, 29, 0, 0, 0, 0⟩] from by decide)
    rw [show listMin1 (⟨2024, 2, 29, 0, 0, 0, 0⟩ : DateTime)
        [(⟨2024, 2, 29, 0, 0, 0, 0⟩ : DateTime), ⟨2024, 2, 29, 0, 0, 0, 0⟩,
          ⟨2024, 2, 29, 0, 0, 0, 0⟩, ⟨2024, 2, 29, 0, 0, 0, 0⟩,
          ⟨2024, 2, 29, 0, 0, 0, 0⟩] = ⟨2024, 2, 29, 0, 0, 0, 0⟩
      from by decide] at h
    exact h
  · have hm1 : retryN vFeb29 false false 1401 ⟨2024, 3, 1, 0, 0, 0, 0⟩ =
        some ⟨2028, 1, 1, 0, 0, 0, 0⟩ := by
      have h0 : retryN vFeb29 false false 1 ⟨2024, 3, 1, 0, 0, 0, 0⟩ =
          some ⟨2024, 3, 2, 0, 0, 0, 0⟩ := by decide!
      have h := retryN_trans h0 feb29_march_case2
      have e : 1 + 1400 = 1401 := by norm_num
      rw [e] at h
      exact h
    have hm2 : retryN vFeb29 false false 1401 ⟨2024, 3, 1, 0, 1, 0, 0⟩ =
        some ⟨2028, 1, 1, 0, 0, 0, 0⟩ := by
      have h0 : retryN vFeb29 false false 1 ⟨2024, 3, 1, 0, 1, 0, 0⟩ =
          some ⟨2024, 3, 2, 0, 0, 0, 0⟩ := by decide!
      have h := retryN_trans h0 feb29_march_case2
      have e : 1 + 1400 = 1401 := by norm_num
      rw [e] at h
      exact h
    have hm3 : retryN vFeb29 false false 1401 ⟨2024, 3, 1, 1, 0, 0, 0⟩ =
        some ⟨2028, 1, 1, 0, 0, 0, 0⟩ := by
      have h0 : retryN vFeb29 false false 1 ⟨2024, 3, 1, 1, 0, 0, 0⟩ =
          some ⟨2024, 3, 2, 0, 0, 0, 0⟩ := by decide!
      have h := retryN_trans h0 feb29_march_case2
      have e : 1 + 1400 = 1401 := by norm_num
      rw [e] at h
      exact h
    have hm5 : retryN vFeb29 false false 1370 ⟨2024, 4, 1, 0, 0, 0, 0⟩ =
        some ⟨2028, 1, 1, 0, 0, 0, 0⟩ := by
      have h := retryN_trans feb29_march_apr24 (retryN_trans feb29_march_y25
        (retryN_trans feb29_march_y26 feb29_march_y27))
      have e : 275 + (365 + (365 + 365)) = 1370 := by norm_num
      rw [e] at h
      exact h
    have hm6 : retryN vFeb29 false false 1095 ⟨2025, 1, 1, 0, 0, 0, 0⟩ =
        some ⟨2028, 1, 1, 0, 0, 0, 0⟩ := by
      have h := retryN_trans feb29_march_y25
        (retryN_trans feb29_march_y26 feb29_march_y27)
      have e : 365 + (365 + 365) = 1095 := by norm_num
      rw [e] at h
      exact h
    have hc1 : calcDate vFeb29 false false ⟨2024, 3, 1, 0, 0, 0, 0⟩ =
        .ok (some ⟨2028, 2, 29, 0, 0, 0, 0⟩) :=
      calcDate_via_march (by decide) hm1 feb29_finish_2028
    have hc2 : calcDate vFeb29 false false ⟨2024, 3, 1, 0, 1, 0, 0⟩ =
        .ok (some ⟨2028, 2, 29, 0, 0, 0, 0⟩) :=
      calcDate_via_march (by decide) hm2 feb29_finish_2028
    have hc3 : calcDate vFeb29 false false ⟨2024, 3, 1, 1, 0, 0, 0⟩ =
        .ok (some ⟨2028, 2, 29, 0, 0, 0, 0⟩) :=
      calcDate_via_march (by decide) hm3 feb29_finish_2028
    have hc4 : calcDate vFeb29 false false ⟨2024, 3, 2, 0, 0, 0, 0⟩ =
        .ok (some ⟨2028, 2, 29, 0, 0, 0, 0⟩) :=
      calcDate_via_march (by decide) feb29_march_case2 feb29_finish_2028
    have hc5 : calcDate vFeb29 false false ⟨2024, 4, 1, 0, 0, 0, 0⟩ =
        .ok (some ⟨2028, 2, 29, 0, 0, 0, 0⟩) :=
      calcDate_via_march (by decide) hm5 feb29_finish_2028
    have hc6 : calcDate vFeb29 false false ⟨2025, 1, 1, 0, 0, 0, 0⟩ =
        .ok (some ⟨2028, 2, 29, 0, 0, 0, 0⟩) :=
      calcDate_via_march (by decide) hm6 feb29_finish_2028
    have hall : ∀ s ∈ [(⟨2024, 3, 1, 0, 0, 0, 0⟩ : DateTime),
        ⟨2024, 3, 1, 0, 1, 0, 0⟩, ⟨2024, 3, 1, 1, 0, 0, 0⟩,
        ⟨2024, 3, 2, 0, 0, 0, 0⟩, ⟨2024, 4, 1, 0, 0, 0, 0⟩,
        ⟨2025, 1, 1, 0, 0, 0, 0⟩],
        calcDate vFeb29 false false s =
          .ok (some (⟨2028, 2, 29, 0, 0, 0, 0⟩ : DateTime)) := by
      intro s hs
      simp only [List.mem_cons, List.not_mem_nil, or_false] at hs
      rcases hs with rfl | rfl | rfl | rfl | rfl | rfl
      exacts [hc1, hc2, hc3, hc4, hc5, hc6]
    have hmap := mapM_ok_of_all
      (g := fun _ => some (⟨2028, 2, 29, 0, 0, 0, 0⟩ : DateTime)) hall
    have h := getNextTokens_eval
      (show parseSchedule (splitWs (macroExpand ("0 0 29 2 *".data))) =
        .ok (vFeb29, false, false) from by decide)
      (show feasCheck vFeb29 = .ok () from by decide)
      (show buildSeeds ⟨2024, 3, 1, 0, 0, 0, 0⟩ =
        .ok [(⟨2024, 3, 1, 0, 0, 0, 0⟩ : DateTime), ⟨2024, 3, 1, 0, 1, 0, 0⟩,
          ⟨2024, 3, 1, 1, 0, 0, 0⟩, ⟨2024, 3, 2, 0, 0, 0, 0⟩,
          ⟨2024, 4, 1, 0, 0, 0, 0⟩, ⟨2025, 1, 1, 0, 0, 0, 0⟩] from by decide)
      hmap
      (show _ = (⟨2028, 2, 29, 0, 0, 0, 0⟩ : DateTime) ::
        [(⟨2028, 2, 29, 0, 0, 0, 0⟩ : DateTime), ⟨2028, 2, 29, 0, 0, 0, 0⟩,
          ⟨2028, 2, 29, 0, 0, 0, 0⟩, ⟨2028, 2, 29, 0, 0, 0, 0⟩,
          ⟨2028, 2, 29, 0, 0, 0, 0⟩] from by decide)
    rw [show listMin1 (⟨2028, 2, 29, 0, 0, 0, 0⟩ : DateTime)
        [(⟨2028, 2, 29, 0, 0, 0, 0⟩ : DateTime), ⟨2028, 2, 29, 0, 0, 0, 0⟩,
          ⟨2028, 2, 29, 0, 0, 0, 0⟩, ⟨2028, 2, 29, 0, 0, 0, 0⟩,
          ⟨2028, 2, 29, 0, 0, 0, 0⟩] = ⟨2028, 2, 29, 0, 0, 0, 0⟩
      from by decide] at h
    exact h

set_option maxRecDepth 400000 in
/-- C9: when the day field carries the `l` (last) modifier, every instant the
search returns falls on the last day of its month; in particular the schedule
`0 0 l * *` from the naive reference 2021-04-15T00:00:00 returns
2021-04-30T00:00:00. -/
theorem lastDay_returns_month_end :
    (∀ (parts : List (List Char)) (now t : DateTime) (v : Values)
      (lastWeekdayF : Bool), isValidDT now →
      parseSchedule parts = .ok (v, true, lastWeekdayF) →
      getNextTokens parts now = .ok (some t) →
      t.day = monthlen t.year t.month) ∧
    get_next_datetime ("0 0 l * *".data) ⟨2021, 4, 15, 0, 0, 0, 0⟩ =
      .ok (some ⟨2021, 4, 30, 0, 0, 0, 0⟩) := by
  refine ⟨fun parts now t v lw hv hp h => getNext_last_day hv hp h, ?_⟩
  decide!

set_option maxRecDepth 400000 in
/-- C1 counterexample: for the schedule `0 0 29 2,8 * 2024` and the reference
2021-01-01T00:00:00 the function returns 2024-08-29T00:00, although
2024-02-29T00:00 also satisfies every parsed field set and lies strictly
between the reference and the returned instant — the result is not the
earliest satisfying instant. -/
theorem getNext_not_earliest_cex :
    get_next_datetime ("0 0 29 2,8 * 2024".data) ⟨2021, 1, 1, 0, 0, 0, 0⟩ =
      .ok (some ⟨2024, 8, 29, 0, 0, 0, 0⟩) ∧
    parseSchedule (splitWs ("0 0 29 2,8 * 2024".data)) =
      .ok (⟨[0], [0], [29], [2, 8], [0, 1, 2, 3, 4, 5, 6], [2024]⟩,
        false, false) ∧
    matchesSchedule ⟨[0], [0], [29], [2, 8], [0, 1, 2, 3, 4, 5, 6], [2024]⟩
      false false ⟨2024, 2, 29, 0, 0, 0, 0⟩ ∧
    dtLt ⟨2021, 1, 1, 0, 0, 0, 0⟩ ⟨2024, 2, 29, 0, 0, 0, 0⟩ ∧
    dtLt ⟨2024, 2, 29, 0, 0, 0, 0⟩ ⟨2024, 8, 29, 0, 0, 0, 0⟩ := by
  refine ⟨by decide!, by decide, by unfold matchesSchedule; decide,
    by unfold dtLt; decide, by unfold dtLt; decide⟩

set_option maxRecDepth 400000 in
/-- C2 counterexample: for the schedule `* * * * *` and the reference
2021-01-01T00:00:00.500000 (zero seconds, non-zero microseconds) the function
returns 2021-01-01T00:00:00.000000, an instant strictly before the
reference. -/
theorem getNext_before_reference_cex :
    get_next_datetime ("* * * * *".data) ⟨2021, 1, 1, 0, 0, 0, 500000⟩ =
      .ok (some ⟨2021, 1, 1, 0, 0, 0, 0⟩) ∧
    dtLt ⟨2021, 1, 1, 0, 0, 0, 0⟩ ⟨2021, 1, 1, 0, 0, 0, 500000⟩ := by
  exact ⟨by decide!, by unfold dtLt; decide⟩

/-- C6 counterexample: for the day-of-month field the term `*/2` parses to
the even days 2, 4, ..., 30 — the domain values divisible by 2 — while the
set of every 2nd value starting at the domain's minimum contains the minimum
1, which the parsed set misses. -/
theorem star_step_not_from_min_cex :
    parseField .day ("*/2".data) =
      .ok ([2, 4, 6, 8, 10, 12, 14, 16, 18, 20, 22, 24, 26, 28, 30],
        false) ∧
    1 ∈ specStarStep .day 2 ∧
    1 ∉ [2, 4, 6, 8, 10, 12, 14, 16, 18, 20, 22, 24, 26, 28, 30] := by
  decide

set_option maxRecDepth 400000 in
/-- C7 counterexample: with the year field fixed to 1980 and the reference
9999-01-01T00:00:00 the function raises `ValueError` while building the
next-year seed, rather than returning `None`. -/
theorem year9999_raises_cex :
    get_next_datetime ("* * * * * 1980".data) ⟨9999, 1, 1, 0, 0, 0, 0⟩ =
      .error .valueError := by
  decide!

set_option maxRecDepth 400000 in
/-- Witness for the C1 theorem at the schedule `* * * * *` and the reference
2021-01-01T00:00:00, which the search returns unchanged. -/
theorem getNext_matches_and_is_seed_min_witness :
    matchesSchedule ⟨domainList .minute, domainList .hour, domainList .day,
        domainList .month, domainList .isoweekday, domainList .year⟩
      false false ⟨2021, 1, 1, 0, 0, 0, 0⟩ ∧
    ∃ seeds results x xs, buildSeeds ⟨2021, 1, 1, 0, 0, 0, 0⟩ = .ok seeds ∧
      seeds.mapM (fun s => calcDate ⟨domainList .minute, domainList .hour,
        domainList .day, domainList .month, domainList .isoweekday,
        domainList .year⟩ false false s) = .ok results ∧
      results.filterMap id = x :: xs ∧
      (⟨2021, 1, 1, 0, 0, 0, 0⟩ : DateTime) = listMin1 x xs :=
  @getNext_matches_and_is_seed_min
    ["*".data, "*".data, "*".data, "*".data, "*".data]
    ⟨2021, 1, 1, 0, 0, 0, 0⟩ ⟨2021, 1, 1, 0, 0, 0, 0⟩
    ⟨domainList .minute, domainList .hour, domainList .day,
      domainList .month, domainList .isoweekday, domainList .year⟩
    false false (by decide) (by decide) (by decide!)

set_option maxRecDepth 400000 in
/-- Witness for the C2 theorem at the schedule `* * * * *` and the reference
2021-01-01T00:00:30, for which the search returns 2021-01-01T00:01:00. -/
theorem getNext_result_bounds_witness :
    (⟨2021, 1, 1, 0, 1, 0, 0⟩ : DateTime).second = 0 ∧
    (⟨2021, 1, 1, 0, 1, 0, 0⟩ : DateTime).microsecond = 0 ∧
    dtLe (floorMin ⟨2021, 1, 1, 0, 0, 30, 0⟩) ⟨2021, 1, 1, 0, 1, 0, 0⟩ ∧
    ((⟨2021, 1, 1, 0, 0, 30, 0⟩ : DateTime).microsecond = 0 →
      dtLe ⟨2021, 1, 1, 0, 0, 30, 0⟩ ⟨2021, 1, 1, 0, 1, 0, 0⟩) ∧
    ((⟨2021, 1, 1, 0, 0, 30, 0⟩ : DateTime).second ≠ 0 →
      dtLt ⟨2021, 1, 1, 0, 0, 30, 0⟩ ⟨2021, 1, 1, 0, 1, 0, 0⟩) ∧
    ((⟨2021, 1, 1, 0, 1, 0, 0⟩ : DateTime) = ⟨2021, 1, 1, 0, 0, 30, 0⟩ →
      (⟨2021, 1, 1, 0, 0, 30, 0⟩ : DateTime).second = 0 ∧
      (⟨2021, 1, 1, 0, 0, 30, 0⟩ : DateTime).microsecond = 0) :=
  @getNext_result_bounds
    ["*".data, "*".data, "*".data, "*".data, "*".data]
    ⟨2021, 1, 1, 0, 0, 30, 0⟩ ⟨2021, 1, 1, 0, 1, 0, 0⟩
    (by decide) (by decide!)

/-- Witness for the C3 theorem at a fixed-date schedule and the candidate
2099-12-31T00:00:00, one day short of the 2100 horizon. -/
theorem calcLoop_terminates_witness :
    (∀ nd, advanceDay ⟨2099, 12, 31, 0, 0, 0, 0⟩ = .ok nd →
      toOrdDT nd = toOrdDT ⟨2099, 12, 31, 0, 0, 0, 0⟩ + 1) ∧
    (∀ (f : Nat) (nd : DateTime),
      advanceDay ⟨2099, 12, 31, 0, 0, 0, 0⟩ = .ok nd → 2100 ≤ nd.year →
      passFields ⟨[0], [0], [1], [1], [0], [1970]⟩
        ⟨2099, 12, 31, 0, 0, 0, 0⟩ ≠ .exhausted →
      (∀ d, passFields ⟨[0], [0], [1], [1], [0], [1970]⟩
          ⟨2099, 12, 31, 0, 0, 0, 0⟩ = .success d →
        postOk ⟨[0], [0], [1], [1], [0], [1970]⟩ false false d = false) →
      calcLoop ⟨[0], [0], [1], [1], [0], [1970]⟩ false false (f + 1)
        ⟨2099, 12, 31, 0, 0, 0, 0⟩ = some (.ok none)) ∧
    (calcLoop ⟨[0], [0], [1], [1], [0], [1970]⟩ false false
      (calcFuel ⟨2099, 12, 31, 0, 0, 0, 0⟩)
      ⟨2099, 12, 31, 0, 0, 0, 0⟩).isSome :=
  calcLoop_terminates ⟨[0], [0], [1], [1], [0], [1970]⟩ false false
    ⟨2099, 12, 31, 0, 0, 0, 0⟩ (by decide)

set_option maxRecDepth 400000 in
/-- Witness for the C4 theorem at the schedule `0 0 31 feb *`: day 31 with
the month set restricted to February fails the feasibility pre-check. -/
theorem infeasible_schedule_raises_witness :
    getNextTokens ["0".data, "0".data, "31".data, "feb".data, "*".data]
      ⟨2021, 1, 1, 0, 0, 0, 0⟩ = .error .daysOutOfScope :=
  @infeasible_schedule_raises
    ["0".data, "0".data, "31".data, "feb".data, "*".data]
    ⟨[0], [0], [31], [2], [0, 1, 2, 3, 4, 5, 6], domainList .year⟩
    false false ⟨2021, 1, 1, 0, 0, 0, 0⟩ (by decide) (by decide) (by decide)

/-- Witness for the C6 theorem at the day-of-month term `*/2`. -/
theorem parseField_star_step_witness :
    parseField .day ('*' :: '/' :: ("2".data)) =
      .ok ((domainList .day).filter
        (fun x => x % natOfDigits ("2".data) == 0), false) :=
  @parseField_star_step .day '*' ("2".data) (Or.inl rfl) (by decide)
    (by decide) (by decide) (by decide)

set_option maxRecDepth 400000 in
/-- Witness for the C7 theorem at the schedule `* * * * * 1980` and the
reference 1990-01-01T00:00:00: every admissible year lies in the past, so the
search returns `None`. -/
theorem getNext_none_of_years_past_witness :
    getNextTokens ["*".data, "*".data, "*".data, "*".data, "*".data,
      "1980".data] ⟨1990, 1, 1, 0, 0, 0, 0⟩ = .ok none :=
  @getNext_none_of_years_past
    ["*".data, "*".data, "*".data, "*".data, "*".data, "1980".data]
    ⟨1990, 1, 1, 0, 0, 0, 0⟩
    ⟨domainList .minute, domainList .hour, domainList .day,
      domainList .month, domainList .isoweekday, [1980]⟩
    false false (by decide) (by decide) (by decide) (by decide) (by decide)

/-- Witness for the C10 theorem: a seven-field schedule behaves as its
six-field prefix. -/
theorem getNext_extra_fields_ignored_witness :
    get_next_datetime ("* * * * * * 7".data) ⟨2021, 1, 1, 0, 0, 0, 0⟩ =
      get_next_datetime ("* * * * * *".data) ⟨2021, 1, 1, 0, 0, 0, 0⟩ :=
  getNext_extra_fields_ignored ("* * * * * * 7".data) ("* * * * * *".data)
    ⟨2021, 1, 1, 0, 0, 0, 0⟩ (by decide) (by decide)

end Crontab
